import Mathlib

/-!
Alternating disks: `disks.hpp`

A shallow embedding of `src/disks.hpp` and a verification of its two sorting
routines, `sort_lawnmower` and `sort_alternate`.

Modelling conventions.

* `std::vector<disk_color>` is a `List disk_color`.
* `assert` failures (and reads past the end of a vector) are the value `none`
  of `Option`.
* Machine integers keep their widths, those of the usual 64-bit platforms:
  `size_t` and `unsigned long` have 64 bits, `int` and `unsigned` have 32.
  - The product `light_count * 2` of the constructor is taken modulo `2 ^ 64`.
  - The expression `size - 1` of `sort_alternate` wraps around on the empty
    row (`size_t_pred`).
  - The `int size` of `sort_lawnmower` is the length narrowed to 32 bits and
    read in two's complement (`int_of_size_t`); it is an `Int` here.
  - The `int swap_count` of both routines is kept as its residue modulo
    `2 ^ 32`: the increment wraps around (`count_incr`), as two's-complement
    hardware does, and the residue is the `unsigned` value that the
    constructor of `sorted_disks` stores.
  - Indices that stay below the length of the row cannot overflow and are
    natural numbers.  A row is a vector, so its length is below `2 ^ 64`.
* A counted `for` loop whose bounds do not change inside the body is a
  structural recursion on the number of iterations that remain.
-/

/-! ## Data model -/

/-- The `enum disk_color { DISK_LIGHT, DISK_DARK }`. -/
inductive disk_color where
  | DISK_LIGHT
  | DISK_DARK
  deriving DecidableEq, Repr

open disk_color

/-- The `class disk_state`: its single field `_colors`. -/
abbrev disk_state := List disk_color

/-- The `class sorted_disks`: the row after sorting and the swap count.  The
count is an `unsigned`; every value the routines build is below `2 ^ 32`. -/
structure sorted_disks where
  after : disk_state
  swap_count : Nat
  deriving DecidableEq, Repr

/-! ## Loop combinators -/

/-- The loop `for (j = start; j < start + k; j++) body(j)`: `k` iterations remain. -/
def for_up {σ : Type} (body : Nat → σ → Option σ) : Nat → Nat → σ → Option σ
  | 0, _, st => some st
  | k + 1, j, st => (body j st).bind (for_up body k (j + 1))

/-- The loop `for (j = start; j > 0; j--) body(j)`. -/
def for_down {σ : Type} (body : Nat → σ → Option σ) : Nat → σ → Option σ
  | 0, st => some st
  | j + 1, st => (body (j + 1) st).bind (for_down body j)

/-- The loop `for (j = start; j < bound; j += 2) body(j)`, by recursion on the
distance `d = bound - j` (truncated): the test `j < bound` is `0 < d`, and
`j += 2` lowers the distance by two, or to zero when it was one. -/
def for_step2 {σ : Type} (body : Nat → σ → Option σ) : Nat → Nat → σ → Option σ
  | 0, _, st => some st
  | 1, j, st => body j st
  | d + 2, j, st => (body j st).bind (for_step2 body d (j + 2))

/-- The largest value of `size_t`. -/
def SIZE_MAX : Nat := 2 ^ 64 - 1

/-- The conversion of a `size_t` to `int`: the low 32 bits, read in two's
complement. -/
def int_of_size_t (x : Nat) : Int :=
  if x % 2 ^ 32 < 2 ^ 31 then ((x % 2 ^ 32 : Nat) : Int)
  else ((x % 2 ^ 32 : Nat) : Int) - 2 ^ 32

/-- The conversion of an `int` to `unsigned long`: the value modulo `2 ^ 64`. -/
def ulong_of_int (x : Int) : Nat := (x % 2 ^ 64).toNat

/-- The statement `swap_count++` on the 32-bit counter, as a residue modulo `2 ^ 32`. -/
def count_incr (c : Nat) : Nat := (c + 1) % 2 ^ 32

/-- The expression `size - 1` over `size_t`: it wraps around at `size = 0`. -/
def size_t_pred (size : Nat) : Nat := if size = 0 then SIZE_MAX else size - 1

namespace disk_state

/-- The loop of the constructor: `for (i = start; i < size; i += 2) _colors[i] = DISK_DARK`,
by recursion on the distance `size - i`. -/
def paint_dark : Nat → Nat → List disk_color → List disk_color
  | 0, _, cs => cs
  | 1, i, cs => cs.set i DISK_DARK
  | d + 2, i, cs => paint_dark d (i + 2) (cs.set i DISK_DARK)

/-- The constructor `disk_state(light_count)`; `none` when `assert(light_count > 0)` fails.
The product `light_count * 2` is one of `size_t`. -/
def create (light_count : Nat) : Option disk_state :=
  let colors := List.replicate (light_count * 2 % 2 ^ 64) DISK_LIGHT
  if light_count > 0 then
    some (paint_dark colors.length 0 colors)
  else none

/-- The member `total_count`. -/
def total_count (s : disk_state) : Nat := s.length

/-- The member `light_count`. -/
def light_count (s : disk_state) : Nat := s.total_count / 2

/-- The member `dark_count`. -/
def dark_count (s : disk_state) : Nat := s.light_count

/-- The member `is_index`. -/
def is_index (s : disk_state) (i : Nat) : Bool := decide (i < s.total_count)

/-- The member `get`; `none` when `assert(is_index(index))` fails. -/
def get (s : disk_state) (index : Nat) : Option disk_color :=
  if s.is_index index then s[index]? else none

/-- The member `swap`; `none` when one of its two assertions fails. -/
def swap (s : disk_state) (left_index : Nat) : Option disk_state :=
  if s.is_index left_index then
    let right_index := left_index + 1
    if s.is_index right_index then
      match s[left_index]?, s[right_index]? with
      | some l, some r => some ((s.set left_index r).set right_index l)
      | _, _ => none
    else none
  else none

/-- The call `std::equal(first1, last1, first2)` as the usual element-wise loop:
`none` when the second range ends before the first one does (a read past its end). -/
def std_equal : List disk_color → List disk_color → Option Bool
  | [], _ => some true
  | _ :: _, [] => none
  | a :: as, b :: bs => if a = b then std_equal as bs else some false

/-- The member `operator==`. -/
def equals (lhs rhs : disk_state) : Option Bool := std_equal lhs rhs

/-- One token of `to_string`. -/
def token (c : disk_color) : String := if c = DISK_LIGHT then "L" else "D"

/-- The member `to_string`: the tokens in index order, separated by one space. -/
def to_string (s : disk_state) : String := " ".intercalate (s.map token)

/-- The loop of `is_initialized`: `check` is the colour expected next. -/
def is_initialized_loop : disk_color → List disk_color → Bool
  | _, [] => true
  | check, c :: cs =>
    match c with
    | DISK_DARK => if c = check then is_initialized_loop DISK_LIGHT cs else false
    | DISK_LIGHT => if c = check then is_initialized_loop DISK_DARK cs else false

/-- The member `is_initialized`. -/
def is_initialized (s : disk_state) : Bool := is_initialized_loop DISK_DARK s

/-- The member `is_sorted`: `false` as soon as a `DISK_DARK` shows up at an
index below `half`, or a `DISK_LIGHT` at an index from `half` on. -/
def is_sorted (s : disk_state) : Bool :=
  let half := s.length / 2
  if (s.take half).any (fun c => decide (c = DISK_DARK)) then false
  else if (s.drop half).any (fun c => decide (c = DISK_LIGHT)) then false
  else true

end disk_state

/-! ## The two sorting routines -/

/-- Body of the rightward loop of `sort_lawnmower`; the `&&` short-circuits. -/
def lawnmower_right_body (j : Nat) (st : sorted_disks) : Option sorted_disks :=
  (st.after.get j).bind fun a =>
    if a = DISK_DARK then
      (st.after.get j).bind fun a2 =>
        (st.after.get (j + 1)).bind fun b =>
          if a2 ≠ b then
            (st.after.swap j).bind fun s => some ⟨s, count_incr st.swap_count⟩
          else some st
    else some st

/-- Body of the leftward loop of `sort_lawnmower`; the `&&` short-circuits. -/
def lawnmower_left_body (j : Nat) (st : sorted_disks) : Option sorted_disks :=
  (st.after.get j).bind fun a =>
    if a = DISK_LIGHT then
      (st.after.get j).bind fun a2 =>
        (st.after.get (j - 1)).bind fun b =>
          if a2 ≠ b then
            (st.after.swap (j - 1)).bind fun s => some ⟨s, count_incr st.swap_count⟩
          else some st
    else some st

/-- Body of the outer loop of `sort_lawnmower`: one pass to the right, with
`int j` from `0` while `j < size - 1`, and one to the left, with
`unsigned long j` from `size - 1` while `j > 0`. -/
def lawnmower_round (size : Int) (_i : Nat) (st : sorted_disks) : Option sorted_disks :=
  (for_up lawnmower_right_body (size - 1).toNat 0 st).bind
    (for_down lawnmower_left_body (ulong_of_int (size - 1)))

/-- The function `sort_lawnmower`: `int size = after.total_count()`, and the
outer loop runs with `int i` from `0` while `i < size / 2`, the quotient of
`int` rounding towards zero. -/
def sort_lawnmower (before : disk_state) : Option sorted_disks :=
  let size : Int := int_of_size_t before.total_count
  for_up (lawnmower_round size) (Int.tdiv size 2).toNat 0 ⟨before, 0⟩

/-- Body of the inner loop of `sort_alternate`; the `&&` short-circuits. -/
def alternate_body (j : Nat) (st : sorted_disks) : Option sorted_disks :=
  (st.after.get j).bind fun a =>
    if a = DISK_DARK then
      (st.after.get (j + 1)).bind fun b =>
        if b = DISK_LIGHT then
          (st.after.swap j).bind fun s => some ⟨s, count_incr st.swap_count⟩
        else some st
    else some st

/-- Body of the outer loop of `sort_alternate`: the scan that starts at `i`. -/
def alternate_run (size : Nat) (i : Nat) (st : sorted_disks) : Option sorted_disks :=
  for_step2 alternate_body (size_t_pred size - i) i st

/-- The function `sort_alternate`.  The bound `after.dark_count() + 1` of the
outer loop depends on the length of the row only, which no swap changes. -/
def sort_alternate (before : disk_state) : Option sorted_disks :=
  let size := before.total_count
  for_up (alternate_run size) (before.dark_count + 1) 0 ⟨before, 0⟩

/-! ## Definitions used by the analysis -/

/-- The effect every loop body has on the row when its indices are in range:
exchange positions `j` and `j + 1` when they hold `DISK_DARK`, `DISK_LIGHT`. -/
def cswap (j : Nat) (row : List disk_color) : List disk_color :=
  if row[j]? = some DISK_DARK ∧ row[j + 1]? = some DISK_LIGHT then
    (row.set j DISK_LIGHT).set (j + 1) DISK_DARK
  else row

/-- The effect every loop body has on the state when its indices are in range. -/
def step (j : Nat) (st : sorted_disks) : sorted_disks :=
  if st.after[j]? = some DISK_DARK ∧ st.after[j + 1]? = some DISK_LIGHT then
    ⟨cswap j st.after, count_incr st.swap_count⟩
  else st

/-- A schedule of guarded swaps, run from left to right. -/
def run (js : List Nat) (st : sorted_disks) : sorted_disks :=
  js.foldl (fun s j => step j s) st

/-- A schedule of guarded swaps on the bare row. -/
def run_row (js : List Nat) (row : List disk_color) : List disk_color :=
  js.foldl (fun r j => cswap j r) row

/-- The indices visited by `for (j = start; j < bound; j += 2)`, by distance. -/
def sched2 : Nat → Nat → List Nat
  | 0, _ => []
  | 1, j => [j]
  | d + 2, j => j :: sched2 d (j + 2)

/-- The schedule of one round of `sort_lawnmower` on a row of the given size. -/
def lawnmower_round_sched (size : Nat) : List Nat :=
  List.range' 0 (size - 1) ++ (List.range (size - 1)).reverse

/-- The whole schedule of `sort_lawnmower` when its `int size` is the given
natural number. -/
def lawnmower_sched_of_size (size : Nat) : List Nat :=
  (List.range' 0 (size / 2)).flatMap (fun _ => lawnmower_round_sched size)

/-- The whole schedule of `sort_lawnmower` on a row of the given length: the
one of its `int size`, which is empty when that `int` is negative. -/
def lawnmower_sched (len : Nat) : List Nat :=
  lawnmower_sched_of_size (int_of_size_t len).toNat

/-- The whole schedule of `sort_alternate` on a row of the given size. -/
def alternate_sched (size : Nat) : List Nat :=
  (List.range' 0 (size / 2 + 1)).flatMap (fun i => sched2 (size - 1 - i) i)

/-- The number of pairs of positions `i < j` with `DISK_DARK` at `i` and
`DISK_LIGHT` at `j`, counted from the left. -/
def inversions : List disk_color → Nat
  | [] => 0
  | DISK_LIGHT :: t => inversions t
  | DISK_DARK :: t => t.count DISK_LIGHT + inversions t

/-- The rightward pass on the bare row. -/
def right_pass (row : List disk_color) : List disk_color :=
  run_row (List.range' 0 (row.length - 1)) row

/-- The leftward pass on the bare row. -/
def left_pass (row : List disk_color) : List disk_color :=
  run_row (List.range (row.length - 1)).reverse row

/-- One round of `sort_lawnmower` on the bare row. -/
def lawnmower_round_row (row : List disk_color) : List disk_color :=
  left_pass (right_pass row)

/-- The row with `a` light disks followed by `b` dark disks. -/
def light_dark (a b : Nat) : List disk_color :=
  List.replicate a DISK_LIGHT ++ List.replicate b DISK_DARK

/-- The alternating row of `2 * n` disks: dark, light, dark, light, ... -/
def alternating : Nat → List disk_color
  | 0 => []
  | n + 1 => DISK_DARK :: DISK_LIGHT :: alternating n

/-- One run of `sort_alternate` on the bare row, started at index zero. -/
def alternate_pass (row : List disk_color) : List disk_color :=
  run_row (sched2 (row.length - 1) 0) row

/-- The row before run `i` of `sort_alternate` when `m` runs that swap are still to come. -/
def alternate_mid (i m : Nat) : List disk_color :=
  List.replicate i DISK_LIGHT ++ (alternating m ++ List.replicate i DISK_DARK)

/-- Apply `swap(j)` for each `j` of the list in turn, each time on a position
that holds `DISK_DARK` with `DISK_LIGHT` to its right; `none` when some
position does not, or when `swap` fails. -/
def apply_swaps : List Nat → disk_state → Option disk_state
  | [], s => some s
  | j :: js, s =>
    if s.get j = some DISK_DARK ∧ s.get (j + 1) = some DISK_LIGHT then
      (s.swap j).bind (apply_swaps js)
    else none

/-- The number of pairs of indices `i < j` of the row with `DISK_DARK` at `i`
and `DISK_LIGHT` at `j`. -/
def inversion_pairs (row : List disk_color) : Nat :=
  ((List.range row.length).map fun i =>
    (List.range row.length).countP fun j =>
      decide (i < j ∧ row[i]? = some DISK_DARK ∧ row[j]? = some DISK_LIGHT)).sum

/-! ## Analysis: the guarded swap -/

theorem cswap_length (j : Nat) (row : List disk_color) : (cswap j row).length = row.length := by
  unfold cswap; split <;> simp

theorem step_after (j : Nat) (st : sorted_disks) : (step j st).after = cswap j st.after := by
  unfold step cswap; split <;> simp_all [cswap]

theorem step_length (j : Nat) (st : sorted_disks) :
    (step j st).after.length = st.after.length := by
  rw [step_after, cswap_length]

theorem lawnmower_right_body_eq (j : Nat) (st : sorted_disks) (h : j + 1 < st.after.length) :
    lawnmower_right_body j st = some (step j st) := by
  have hj : j < st.after.length := by omega
  obtain ⟨a, ha⟩ : ∃ a, st.after[j]? = some a := ⟨_, List.getElem?_eq_getElem hj⟩
  obtain ⟨b, hb⟩ : ∃ b, st.after[j + 1]? = some b := ⟨_, List.getElem?_eq_getElem h⟩
  cases a <;> cases b <;>
    simp [lawnmower_right_body, step, cswap, disk_state.get, disk_state.swap,
      disk_state.is_index, disk_state.total_count, ha, hb, h, hj]

theorem alternate_body_eq (j : Nat) (st : sorted_disks) (h : j + 1 < st.after.length) :
    alternate_body j st = some (step j st) := by
  have hj : j < st.after.length := by omega
  obtain ⟨a, ha⟩ : ∃ a, st.after[j]? = some a := ⟨_, List.getElem?_eq_getElem hj⟩
  obtain ⟨b, hb⟩ : ∃ b, st.after[j + 1]? = some b := ⟨_, List.getElem?_eq_getElem h⟩
  cases a <;> cases b <;>
    simp [alternate_body, step, cswap, disk_state.get, disk_state.swap,
      disk_state.is_index, disk_state.total_count, ha, hb, h, hj]

theorem lawnmower_left_body_eq (j : Nat) (st : sorted_disks) (h : j + 1 < st.after.length) :
    lawnmower_left_body (j + 1) st = some (step j st) := by
  have hj : j < st.after.length := by omega
  obtain ⟨a, ha⟩ : ∃ a, st.after[j]? = some a := ⟨_, List.getElem?_eq_getElem hj⟩
  obtain ⟨b, hb⟩ : ∃ b, st.after[j + 1]? = some b := ⟨_, List.getElem?_eq_getElem h⟩
  cases a <;> cases b <;>
    simp [lawnmower_left_body, step, cswap, disk_state.get, disk_state.swap,
      disk_state.is_index, disk_state.total_count, ha, hb, h, hj]

/-! ## Analysis: loops as schedules -/

theorem run_nil (st : sorted_disks) : run [] st = st := rfl

theorem run_cons (j : Nat) (js : List Nat) (st : sorted_disks) :
    run (j :: js) st = run js (step j st) := rfl

theorem run_append (js ks : List Nat) (st : sorted_disks) :
    run (js ++ ks) st = run ks (run js st) := by
  simp [run, List.foldl_append]

theorem run_length (js : List Nat) (st : sorted_disks) :
    (run js st).after.length = st.after.length := by
  induction js generalizing st with
  | nil => rfl
  | cons j js ih => rw [run_cons, ih, step_length]

theorem run_after (js : List Nat) (st : sorted_disks) :
    (run js st).after = run_row js st.after := by
  induction js generalizing st with
  | nil => rfl
  | cons j js ih =>
    rw [run_cons, ih, step_after]
    rfl

/-- An ascending loop whose body runs a schedule runs the schedules in a row. -/
theorem for_up_run (body : Nat → sorted_disks → Option sorted_disks) (len : Nat)
    (sched : Nat → List Nat) :
    ∀ (k i : Nat) (st : sorted_disks), st.after.length = len →
      (∀ i2, i ≤ i2 → i2 < i + k → ∀ st2 : sorted_disks, st2.after.length = len →
        body i2 st2 = some (run (sched i2) st2)) →
      for_up body k i st = some (run ((List.range' i k).flatMap sched) st) := by
  intro k
  induction k with
  | zero => intro i st _ _; rfl
  | succ k ih =>
    intro i st hlen hbody
    have h1 := hbody i (le_refl i) (by omega) st hlen
    have h2 := ih (i + 1) (run (sched i) st) (by rw [run_length, hlen])
      (fun i2 h3 h4 => hbody i2 (by omega) (by omega))
    simp only [for_up, h1, Option.some_bind, h2, List.range'_succ, List.flatMap_cons, run_append]

/-- A descending loop whose body at `j + 1` is the guarded swap at `j`. -/
theorem for_down_run (body : Nat → sorted_disks → Option sorted_disks) (len : Nat) :
    ∀ (j : Nat) (st : sorted_disks), st.after.length = len →
      (∀ j2, j2 < j → ∀ st2 : sorted_disks, st2.after.length = len →
        body (j2 + 1) st2 = some (step j2 st2)) →
      for_down body j st = some (run (List.range j).reverse st) := by
  intro j
  induction j with
  | zero => intro st _ _; rfl
  | succ j ih =>
    intro st hlen hbody
    have h1 := hbody j (by omega) st hlen
    have h2 := ih (step j st) (by rw [step_length, hlen]) (fun j2 h3 => hbody j2 (by omega))
    simp only [for_down, h1, Option.some_bind, h2, List.range_succ, List.reverse_append,
      List.reverse_cons, List.reverse_nil, List.nil_append, List.singleton_append, run_cons]

/-- A loop of stride two whose body at `j` is the guarded swap at `j`. -/
theorem for_step2_run (body : Nat → sorted_disks → Option sorted_disks) (len : Nat) :
    ∀ (n d j : Nat) (st : sorted_disks), d ≤ n → st.after.length = len →
      (∀ j2, j ≤ j2 → j2 < j + d → ∀ st2 : sorted_disks, st2.after.length = len →
        body j2 st2 = some (step j2 st2)) →
      for_step2 body d j st = some (run (sched2 d j) st) := by
  intro n
  induction n with
  | zero =>
    intro d j st hd _ _
    obtain rfl : d = 0 := by omega
    rfl
  | succ n ih =>
    intro d j st hd hlen hbody
    match d, hd, hbody with
    | 0, _, _ => rfl
    | 1, _, hbody =>
      have h1 := hbody j (le_refl j) (by omega) st hlen
      simp only [for_step2, h1, sched2, run_cons, run_nil]
    | d + 2, hd, hbody =>
      have h1 := hbody j (le_refl j) (by omega) st hlen
      have h2 := ih d (j + 2) (step j st) (by omega) (by rw [step_length, hlen])
        (fun j2 h3 h4 => hbody j2 (by omega) (by omega))
      simp only [for_step2, h1, Option.some_bind, h2, sched2, run_cons]

/-- The `int size` of `sort_lawnmower` is either the low 32 bits of the length,
when they are below `2 ^ 31`, or negative. -/
theorem int_of_size_t_cases (len : Nat) :
    (int_of_size_t len = (((int_of_size_t len).toNat : Nat) : Int) ∧
        (int_of_size_t len).toNat = len % 2 ^ 32 ∧ len % 2 ^ 32 < 2 ^ 31) ∨
      (int_of_size_t len < 0 ∧ (int_of_size_t len).toNat = 0 ∧ 2 ^ 31 ≤ len % 2 ^ 32) := by
  unfold int_of_size_t
  split
  · left
    omega
  · right
    omega

theorem int_of_size_t_small (len : Nat) (h : len < 2 ^ 31) :
    int_of_size_t len = (len : Int) := by
  unfold int_of_size_t
  rw [Nat.mod_eq_of_lt (by omega), if_pos h]

theorem int_of_size_t_toNat_le (len : Nat) : (int_of_size_t len).toNat ≤ len := by
  have h := Nat.mod_le len (2 ^ 32)
  rcases int_of_size_t_cases len with ⟨_, h1, _⟩ | ⟨_, h1, _⟩ <;> omega

theorem lawnmower_round_eq (size len i : Nat) (st : sorted_disks) (h : st.after.length = len)
    (hs : size ≤ len) (h1 : 1 ≤ size) (hb : size < 2 ^ 31) :
    lawnmower_round (size : Int) i st = some (run (lawnmower_round_sched size) st) := by
  have e1 : ((size : Int) - 1).toNat = size - 1 := by omega
  have e2 : ulong_of_int ((size : Int) - 1) = size - 1 := by
    unfold ulong_of_int
    omega
  have h1 := for_up_run lawnmower_right_body len (fun j => [j]) (size - 1) 0 st h
    (fun j _ hj st2 h2 => by
      rw [lawnmower_right_body_eq j st2 (by omega)]; rfl)
  have h2 := for_down_run lawnmower_left_body len (size - 1)
    (run ((List.range' 0 (size - 1)).flatMap (fun j => [j])) st) (by rw [run_length, h])
    (fun j hj st2 h2 => lawnmower_left_body_eq j st2 (by omega))
  have h3 : ∀ l : List Nat, l.flatMap (fun j => [j]) = l := by
    intro l
    induction l with
    | nil => rfl
    | cons a l ih => rw [List.flatMap_cons, ih]; rfl
  rw [h3] at h1 h2
  simp only [lawnmower_round, e1, e2, h1, Option.some_bind, h2, lawnmower_round_sched,
    run_append]

/-- The routine `sort_lawnmower` never fails and runs its schedule. -/
theorem sort_lawnmower_eq (before : disk_state) :
    sort_lawnmower before = some (run (lawnmower_sched before.length) ⟨before, 0⟩) := by
  unfold sort_lawnmower lawnmower_sched lawnmower_sched_of_size disk_state.total_count
  have hle := int_of_size_t_toNat_le before.length
  rcases int_of_size_t_cases before.length with ⟨h1, h2, h3⟩ | ⟨h1, h2, _⟩
  · have e : (Int.tdiv (int_of_size_t before.length) 2).toNat
        = (int_of_size_t before.length).toNat / 2 := by
      rw [h1]
      rfl
    simp only
    rw [e]
    refine for_up_run _ before.length _ _ 0 _ rfl (fun i _ hi st2 hl => ?_)
    rw [h1]
    exact lawnmower_round_eq _ before.length i st2 hl hle (by omega) (by omega)
  · have e : (Int.tdiv (int_of_size_t before.length) 2).toNat = 0 := by
      have h4 : 0 ≤ Int.tdiv (-int_of_size_t before.length) 2 :=
        Int.tdiv_nonneg (by omega) (by decide)
      rw [Int.neg_tdiv] at h4
      omega
    simp only
    rw [e, h2]
    rfl

theorem alternate_run_eq (size i : Nat) (st : sorted_disks) (h : st.after.length = size)
    (hs : 0 < size) :
    alternate_run size i st = some (run (sched2 (size - 1 - i) i) st) := by
  have h0 : size_t_pred size = size - 1 := by
    unfold size_t_pred; rw [if_neg (by omega)]
  unfold alternate_run
  rw [h0]
  exact for_step2_run alternate_body size _ _ i st (le_refl _) h
    (fun j _ hj st2 h2 => alternate_body_eq j st2 (by omega))

/-- The routine `sort_alternate` does not fail on a row that is not empty, and
runs its schedule. -/
theorem sort_alternate_eq (before : disk_state) (hs : 0 < before.length) :
    sort_alternate before = some (run (alternate_sched before.length) ⟨before, 0⟩) := by
  unfold sort_alternate alternate_sched disk_state.dark_count disk_state.light_count
    disk_state.total_count
  exact for_up_run _ before.length _ _ 0 _ rfl
    (fun i _ _ st2 h2 => alternate_run_eq before.length i st2 h2 hs)

/-! ## Analysis: what a guarded swap preserves -/

theorem cswap_cons_succ (j : Nat) (x : disk_color) (row : List disk_color) :
    cswap (j + 1) (x :: row) = x :: cswap j row := by
  unfold cswap
  simp only [List.getElem?_cons_succ, List.set_cons_succ]
  split <;> rfl

theorem cswap_append_left (j : Nat) (u v : List disk_color) (h : j + 1 < u.length) :
    cswap j (u ++ v) = cswap j u ++ v := by
  have hj : j < u.length := by omega
  unfold cswap
  rw [List.getElem?_append_left hj, List.getElem?_append_left h]
  split
  · rw [List.set_append_left _ _ hj, List.set_append_left _ _ (by simpa using h)]
  · rfl

theorem cswap_zero_dark_light (t : List disk_color) :
    cswap 0 (DISK_DARK :: DISK_LIGHT :: t) = DISK_LIGHT :: DISK_DARK :: t := by
  simp [cswap]

theorem cswap_zero_light (t : List disk_color) :
    cswap 0 (DISK_LIGHT :: t) = DISK_LIGHT :: t := by
  simp [cswap]

theorem cswap_zero_dark_dark (t : List disk_color) :
    cswap 0 (DISK_DARK :: DISK_DARK :: t) = DISK_DARK :: DISK_DARK :: t := by
  simp [cswap]

theorem cswap_zero_single (x : disk_color) : cswap 0 [x] = [x] := by
  simp [cswap]

theorem cswap_nil (j : Nat) : cswap j [] = [] := by
  simp [cswap]

theorem cswap_perm (j : Nat) (row : List disk_color) : (cswap j row).Perm row := by
  induction j generalizing row with
  | zero =>
    match row with
    | [] => rw [cswap_nil]
    | [x] => rw [cswap_zero_single]
    | DISK_LIGHT :: t => rw [cswap_zero_light]
    | DISK_DARK :: DISK_DARK :: t => rw [cswap_zero_dark_dark]
    | DISK_DARK :: DISK_LIGHT :: t =>
      rw [cswap_zero_dark_light]
      exact List.Perm.swap _ _ _
  | succ j ih =>
    match row with
    | [] => rw [cswap_nil]
    | x :: t =>
      rw [cswap_cons_succ]
      exact (ih t).cons x

theorem run_row_perm (js : List Nat) (row : List disk_color) : (run_row js row).Perm row := by
  induction js generalizing row with
  | nil => exact List.Perm.refl _
  | cons j js ih => exact (ih (cswap j row)).trans (cswap_perm j row)

theorem cswap_inversions (j : Nat) (row : List disk_color) :
    inversions (cswap j row)
      + (if row[j]? = some DISK_DARK ∧ row[j + 1]? = some DISK_LIGHT then 1 else 0)
      = inversions row := by
  induction j generalizing row with
  | zero =>
    match row with
    | [] => simp [cswap_nil]
    | [x] => simp [cswap_zero_single]
    | DISK_LIGHT :: t => simp [cswap_zero_light]
    | DISK_DARK :: DISK_DARK :: t => simp [cswap_zero_dark_dark]
    | DISK_DARK :: DISK_LIGHT :: t =>
      simp [cswap_zero_dark_light, inversions]
      omega
  | succ j ih =>
    match row with
    | [] => simp [cswap_nil]
    | DISK_LIGHT :: t =>
      rw [cswap_cons_succ]
      simpa [inversions] using ih t
    | DISK_DARK :: t =>
      rw [cswap_cons_succ]
      have h := ih t
      have hc : (cswap j t).count DISK_LIGHT = t.count DISK_LIGHT := (cswap_perm j t).count_eq _
      simp only [inversions, List.getElem?_cons_succ, hc]
      omega

theorem step_inversions (j : Nat) (st : sorted_disks) :
    (inversions (step j st).after + (step j st).swap_count) % 2 ^ 32
      = (inversions st.after + st.swap_count) % 2 ^ 32 := by
  have h := cswap_inversions j st.after
  unfold step
  split
  · rename_i hc
    rw [if_pos hc] at h
    simp only [count_incr]
    omega
  · rfl

/-- Along any schedule, inversions removed and swaps counted add up, modulo the
range of the counter. -/
theorem run_inversions (js : List Nat) (st : sorted_disks) :
    (inversions (run js st).after + (run js st).swap_count) % 2 ^ 32
      = (inversions st.after + st.swap_count) % 2 ^ 32 := by
  induction js generalizing st with
  | nil => rfl
  | cons j js ih => rw [run_cons, ih, step_inversions j st]

theorem step_count_lt (j : Nat) (st : sorted_disks) (h : st.swap_count < 2 ^ 32) :
    (step j st).swap_count < 2 ^ 32 := by
  unfold step
  split
  · simp only [count_incr]
    omega
  · exact h

theorem run_count_lt (js : List Nat) (st : sorted_disks) (h : st.swap_count < 2 ^ 32) :
    (run js st).swap_count < 2 ^ 32 := by
  induction js generalizing st with
  | nil => exact h
  | cons j js ih => rw [run_cons]; exact ih _ (step_count_lt j st h)

/-! ## Analysis: the passes of `sort_lawnmower` -/

theorem run_row_nil (row : List disk_color) : run_row [] row = row := rfl

theorem run_row_cons (j : Nat) (js : List Nat) (row : List disk_color) :
    run_row (j :: js) row = run_row js (cswap j row) := rfl

theorem run_row_append (js ks : List Nat) (row : List disk_color) :
    run_row (js ++ ks) row = run_row ks (run_row js row) := by
  simp [run_row, List.foldl_append]

theorem run_row_length (js : List Nat) (row : List disk_color) :
    (run_row js row).length = row.length := (run_row_perm js row).length_eq

theorem run_row_cons_succ (js : List Nat) (x : disk_color) (row : List disk_color) :
    run_row (js.map (fun j => j + 1)) (x :: row) = x :: run_row js row := by
  induction js generalizing row with
  | nil => rfl
  | cons j js ih => rw [List.map_cons, run_row_cons, cswap_cons_succ, ih, run_row_cons]

theorem run_row_append_left (js : List Nat) (u v : List disk_color)
    (h : ∀ j ∈ js, j + 1 < u.length) : run_row js (u ++ v) = run_row js u ++ v := by
  induction js generalizing u with
  | nil => rfl
  | cons j js ih =>
    rw [run_row_cons, cswap_append_left j u v (h j (List.mem_cons_self _ _)),
      ih (cswap j u) (fun j2 h2 => by
        rw [cswap_length]; exact h j2 (List.mem_cons_of_mem _ h2)), run_row_cons]

theorem cswap_append_right (j : Nat) (u v : List disk_color) :
    cswap (u.length + j) (u ++ v) = u ++ cswap j v := by
  induction u with
  | nil => simp
  | cons x u ih =>
    have h : (x :: u).length + j = (u.length + j) + 1 := by simp; omega
    rw [h, List.cons_append, cswap_cons_succ, ih, List.cons_append]

theorem right_pass_cons2 (x y a b : disk_color) (t : List disk_color)
    (h : cswap 0 [x, y] = [a, b]) : right_pass (x :: y :: t) = a :: right_pass (b :: t) := by
  have h1 : cswap 0 (x :: y :: t) = a :: b :: t := by
    have := cswap_append_left 0 [x, y] t (by simp)
    simpa [h] using this
  have h2 : List.range' 0 ((x :: y :: t).length - 1)
      = 0 :: (List.range' 0 ((b :: t).length - 1)).map (fun j => j + 1) := by
    simp only [List.length_cons, Nat.add_sub_cancel, List.range'_succ]
    congr 1
    rw [show (fun j => j + 1) = (fun j => 1 + j) from funext (fun j => Nat.add_comm j 1),
      List.map_add_range']
  unfold right_pass
  rw [h2, run_row_cons, h1, run_row_cons_succ]

theorem right_pass_light (t : List disk_color) :
    right_pass (DISK_LIGHT :: t) = DISK_LIGHT :: right_pass t := by
  match t with
  | [] => rfl
  | y :: t => exact right_pass_cons2 _ y _ y t (by simp [cswap])

theorem right_pass_dark (t : List disk_color) :
    right_pass (DISK_DARK :: t) = t ++ [DISK_DARK] := by
  induction t with
  | nil => rfl
  | cons y t ih =>
    cases y
    · rw [right_pass_cons2 DISK_DARK DISK_LIGHT DISK_LIGHT DISK_DARK t (by simp [cswap]), ih]
      rfl
    · rw [right_pass_cons2 DISK_DARK DISK_DARK DISK_DARK DISK_DARK t (by simp [cswap]), ih]
      rfl

theorem left_pass_snoc2 (y x a b : disk_color) (t : List disk_color)
    (h : cswap 0 [y, x] = [a, b]) : left_pass (t ++ [y, x]) = left_pass (t ++ [a]) ++ [b] := by
  have h1 : cswap t.length (t ++ [y, x]) = (t ++ [a]) ++ [b] := by
    have := cswap_append_right 0 t [y, x]
    simpa [h] using this
  have h2 : (List.range ((t ++ [y, x]).length - 1)).reverse
      = t.length :: (List.range ((t ++ [a]).length - 1)).reverse := by
    simp [List.range_succ]
  unfold left_pass
  rw [h2, run_row_cons, h1, run_row_append_left]
  intro j hj
  simp only [List.length_append, List.length_singleton, Nat.add_sub_cancel, List.mem_reverse,
    List.mem_range] at hj ⊢
  omega

theorem left_pass_dark (t : List disk_color) :
    left_pass (t ++ [DISK_DARK]) = left_pass t ++ [DISK_DARK] := by
  rcases List.eq_nil_or_concat t with rfl | ⟨s, y, rfl⟩
  · rfl
  · have := left_pass_snoc2 y DISK_DARK y DISK_DARK s (by cases y <;> simp [cswap])
    simpa using this

theorem left_pass_light (t : List disk_color) :
    left_pass (t ++ [DISK_LIGHT]) = DISK_LIGHT :: t := by
  induction t using List.reverseRecOn with
  | nil => rfl
  | append_singleton s y ih =>
    cases y
    · have := left_pass_snoc2 DISK_LIGHT DISK_LIGHT DISK_LIGHT DISK_LIGHT s (by simp [cswap])
      simp only [List.append_assoc, List.singleton_append] at this ⊢
      rw [this, ih]; rfl
    · have := left_pass_snoc2 DISK_DARK DISK_LIGHT DISK_LIGHT DISK_DARK s (by simp [cswap])
      simp only [List.append_assoc, List.singleton_append] at this ⊢
      rw [this, ih]; rfl

theorem left_pass_cons_light (u : List disk_color) :
    left_pass (DISK_LIGHT :: u) = DISK_LIGHT :: left_pass u := by
  induction u using List.reverseRecOn with
  | nil => rfl
  | append_singleton v y ih =>
    cases y
    · rw [← List.cons_append, left_pass_light, left_pass_light]
    · rw [← List.cons_append, left_pass_dark, ih, left_pass_dark, List.cons_append]

theorem right_pass_snoc_dark (u : List disk_color) :
    right_pass (u ++ [DISK_DARK]) = right_pass u ++ [DISK_DARK] := by
  induction u with
  | nil => rfl
  | cons x v ih =>
    cases x
    · rw [List.cons_append, right_pass_light, ih, right_pass_light, List.cons_append]
    · rw [List.cons_append, right_pass_dark, right_pass_dark]

theorem lawnmower_round_row_nil : lawnmower_round_row [] = [] := rfl

theorem lawnmower_round_row_light (t : List disk_color) :
    lawnmower_round_row (DISK_LIGHT :: t) = DISK_LIGHT :: lawnmower_round_row t := by
  unfold lawnmower_round_row
  rw [right_pass_light, left_pass_cons_light]

theorem lawnmower_round_row_dark (t : List disk_color) :
    lawnmower_round_row (t ++ [DISK_DARK]) = lawnmower_round_row t ++ [DISK_DARK] := by
  unfold lawnmower_round_row
  rw [right_pass_snoc_dark, left_pass_dark]

theorem lawnmower_round_row_dark_light (t : List disk_color) :
    lawnmower_round_row (DISK_DARK :: (t ++ [DISK_LIGHT]))
      = DISK_LIGHT :: (t ++ [DISK_DARK]) := by
  unfold lawnmower_round_row
  rw [right_pass_dark, left_pass_dark, left_pass_light, List.cons_append]

theorem lawnmower_rounds_light (k : Nat) (t : List disk_color) :
    lawnmower_round_row^[k] (DISK_LIGHT :: t) = DISK_LIGHT :: lawnmower_round_row^[k] t := by
  induction k generalizing t with
  | zero => rfl
  | succ k ih => rw [Function.iterate_succ_apply, lawnmower_round_row_light, ih,
      Function.iterate_succ_apply]

theorem lawnmower_rounds_dark (k : Nat) (t : List disk_color) :
    lawnmower_round_row^[k] (t ++ [DISK_DARK]) = lawnmower_round_row^[k] t ++ [DISK_DARK] := by
  induction k generalizing t with
  | zero => rfl
  | succ k ih => rw [Function.iterate_succ_apply, lawnmower_round_row_dark, ih,
      Function.iterate_succ_apply]

theorem lawnmower_rounds_nil (k : Nat) : lawnmower_round_row^[k] [] = [] := by
  induction k with
  | zero => rfl
  | succ k ih => rw [Function.iterate_succ_apply, lawnmower_round_row_nil, ih]

theorem light_dark_cons (a b : Nat) :
    DISK_LIGHT :: light_dark a b = light_dark (a + 1) b := by
  simp [light_dark, List.replicate_succ]

theorem light_dark_snoc (a b : Nat) :
    light_dark a b ++ [DISK_DARK] = light_dark a (b + 1) := by
  simp [light_dark, List.replicate_succ']

/-- After `k` rounds a row of at most `2 * k` disks is: light disks, then dark disks. -/
theorem lawnmower_rounds_sorted (m : Nat) :
    ∀ (row : List disk_color), row.length ≤ m → ∀ k, row.length ≤ 2 * k →
      ∃ a b, lawnmower_round_row^[k] row = light_dark a b := by
  induction m using Nat.strong_induction_on with
  | _ m ih =>
    intro row hm k hk
    match row, hm, hk with
    | [], _, _ => exact ⟨0, 0, lawnmower_rounds_nil k⟩
    | DISK_LIGHT :: t, hm, hk =>
      simp only [List.length_cons] at hm hk
      obtain ⟨a, b, h⟩ := ih t.length (by omega) t (le_refl _) k (by omega)
      exact ⟨a + 1, b, by rw [lawnmower_rounds_light, h, light_dark_cons]⟩
    | DISK_DARK :: t, hm, hk =>
      rcases List.eq_nil_or_concat t with rfl | ⟨u, y, ht⟩
      · exact ⟨0, 1, by
          have := lawnmower_rounds_dark k []
          rw [lawnmower_rounds_nil] at this
          exact this⟩
      · rw [List.concat_eq_append] at ht
        subst ht
        simp only [List.length_cons, List.length_append, List.length_singleton] at hm hk
        cases y
        · obtain ⟨k, rfl⟩ : ∃ k2, k = k2 + 1 := ⟨k - 1, by omega⟩
          obtain ⟨a, b, h⟩ := ih u.length (by omega) u (le_refl _) k (by omega)
          exact ⟨a + 1, b + 1, by
            rw [Function.iterate_succ_apply, lawnmower_round_row_dark_light,
              lawnmower_rounds_light, lawnmower_rounds_dark, h, light_dark_snoc,
              light_dark_cons]⟩
        · obtain ⟨a, b, h⟩ := ih (DISK_DARK :: u).length (by simp; omega) (DISK_DARK :: u)
            (le_refl _) k (by simp; omega)
          exact ⟨a, b + 1, by
            rw [← List.cons_append, lawnmower_rounds_dark, h, light_dark_snoc]⟩

theorem lawnmower_round_row_length (row : List disk_color) :
    (lawnmower_round_row row).length = row.length := by
  unfold lawnmower_round_row left_pass right_pass
  rw [run_row_length, run_row_length]

theorem lawnmower_round_sched_row (row : List disk_color) :
    run_row (lawnmower_round_sched row.length) row = lawnmower_round_row row := by
  unfold lawnmower_round_sched lawnmower_round_row left_pass right_pass
  rw [run_row_append, run_row_length]

theorem lawnmower_sched_row (row : List disk_color) :
    run_row (lawnmower_sched_of_size row.length) row
      = lawnmower_round_row^[row.length / 2] row := by
  unfold lawnmower_sched_of_size
  generalize row.length / 2 = k
  generalize 0 = s
  induction k generalizing row s with
  | zero => rfl
  | succ k ih =>
    rw [List.range'_succ, List.flatMap_cons, run_row_append, lawnmower_round_sched_row,
      Function.iterate_succ_apply, ← ih (lawnmower_round_row row) (s + 1),
      lawnmower_round_row_length]

theorem lawnmower_sched_small (len : Nat) (h : len < 2 ^ 31) :
    lawnmower_sched len = lawnmower_sched_of_size len := by
  unfold lawnmower_sched
  rw [int_of_size_t_small len h, Int.toNat_ofNat]

/-- The row `sort_lawnmower` returns is: light disks, then dark disks, when the
length of the row fits its `int size`. -/
theorem lawnmower_sched_sorted (row : List disk_color) (h : row.length % 2 = 0)
    (hlt : row.length < 2 ^ 31) :
    ∃ a b, run_row (lawnmower_sched row.length) row = light_dark a b := by
  rw [lawnmower_sched_small _ hlt, lawnmower_sched_row]
  exact lawnmower_rounds_sorted row.length row (le_refl _) _ (by omega)

/-! ## Analysis: rows on which no guarded swap fires -/

theorem light_dark_getElem?_dark (a b j : Nat) (h : (light_dark a b)[j]? = some DISK_DARK) :
    a ≤ j := by
  by_contra hlt
  have hj : j < a := by omega
  unfold light_dark at h
  rw [List.getElem?_append_left (by simpa using hj)] at h
  simp [List.getElem?_replicate, hj] at h

theorem light_dark_getElem?_light (a b j : Nat) (h : (light_dark a b)[j]? = some DISK_LIGHT) :
    j < a := by
  by_contra hge
  unfold light_dark at h
  rw [List.getElem?_append_right (by simpa using hge)] at h
  simp [List.getElem?_replicate] at h

theorem cswap_light_dark (j a b : Nat) : cswap j (light_dark a b) = light_dark a b := by
  unfold cswap
  split
  · rename_i h
    have h1 := light_dark_getElem?_dark a b j h.1
    have h2 := light_dark_getElem?_light a b (j + 1) h.2
    omega
  · rfl

theorem run_row_light_dark (js : List Nat) (a b : Nat) :
    run_row js (light_dark a b) = light_dark a b := by
  induction js with
  | nil => rfl
  | cons j js ih => rw [run_row_cons, cswap_light_dark, ih]

theorem step_light_dark (j a b : Nat) (st : sorted_disks) (h : st.after = light_dark a b) :
    step j st = st := by
  unfold step
  split
  · rename_i hc
    rw [h] at hc
    have h1 := light_dark_getElem?_dark a b j hc.1
    have h2 := light_dark_getElem?_light a b (j + 1) hc.2
    omega
  · rfl

theorem run_light_dark (js : List Nat) (a b : Nat) (st : sorted_disks)
    (h : st.after = light_dark a b) : run js st = st := by
  induction js with
  | nil => rfl
  | cons j js ih => rw [run_cons, step_light_dark j a b st h, ih]

/-! ## Analysis: the runs of `sort_alternate` on the alternating row -/

theorem alternating_length (n : Nat) : (alternating n).length = 2 * n := by
  induction n with
  | zero => rfl
  | succ n ih => simp only [alternating, List.length_cons, ih]; omega

theorem paint_dark_alternating (n : Nat) :
    ∀ (i : Nat) (p : List disk_color), p.length = i →
      disk_state.paint_dark (2 * n) i (p ++ List.replicate (2 * n) DISK_LIGHT)
        = p ++ alternating n := by
  induction n with
  | zero => intro i p _; rfl
  | succ n ih =>
    intro i p hp
    have h1 : 2 * (n + 1) = 2 * n + 2 := by omega
    rw [h1]
    simp only [disk_state.paint_dark, List.replicate_succ]
    have h2 : (p ++ DISK_LIGHT :: DISK_LIGHT :: List.replicate (2 * n) DISK_LIGHT).set i DISK_DARK
        = (p ++ [DISK_DARK, DISK_LIGHT]) ++ List.replicate (2 * n) DISK_LIGHT := by
      subst hp
      simp [List.set_append]
    rw [h2, ih (i + 2) (p ++ [DISK_DARK, DISK_LIGHT]) (by simp [hp])]
    simp [alternating]

/-- The constructor builds the alternating row. -/
theorem create_eq (n : Nat) (h : 0 < n) (hlt : n < 2 ^ 63) :
    disk_state.create n = some (alternating n) := by
  unfold disk_state.create
  have hm : n * 2 % 2 ^ 64 = 2 * n := by
    rw [Nat.mod_eq_of_lt (by omega)]
    omega
  simp only [gt_iff_lt, h, if_true, List.length_replicate, hm]
  have := paint_dark_alternating n 0 [] rfl
  simpa using this

/-- The product `light_count * 2` wraps around to zero at `2 ^ 63`: the
constructor passes its assertion and builds the empty row. -/
theorem create_wraps : disk_state.create (2 ^ 63) = some [] := by
  decide

theorem sched2_succ (d j : Nat) : sched2 d (j + 1) = (sched2 d j).map (fun i => i + 1) := by
  induction d, j using sched2.induct with
  | case1 j => rfl
  | case2 j => rfl
  | case3 d j ih => simp only [sched2, List.map_cons, ih]

theorem alternate_pass_dark_light (t : List disk_color) :
    alternate_pass (DISK_DARK :: DISK_LIGHT :: t)
      = DISK_LIGHT :: DISK_DARK :: alternate_pass t := by
  unfold alternate_pass
  match t with
  | [] => simp [sched2, run_row_cons, run_row_nil, cswap_zero_dark_light]
  | x :: t =>
    have h1 : (DISK_DARK :: DISK_LIGHT :: x :: t).length - 1 = ((x :: t).length - 1) + 2 := by
      simp
    rw [h1]
    simp only [sched2]
    rw [run_row_cons, cswap_zero_dark_light, sched2_succ, sched2_succ, run_row_cons_succ,
      run_row_cons_succ]

theorem alternate_pass_alternating (m i : Nat) :
    alternate_pass (alternating (m + 1) ++ List.replicate i DISK_DARK)
      = DISK_LIGHT :: (alternating m ++ List.replicate (i + 1) DISK_DARK) := by
  induction m with
  | zero =>
    have h : alternate_pass (List.replicate i DISK_DARK) = List.replicate i DISK_DARK := by
      have := run_row_light_dark (sched2 ((light_dark 0 i).length - 1) 0) 0 i
      simpa [light_dark, alternate_pass] using this
    simp only [alternating, List.cons_append, List.nil_append, alternate_pass_dark_light, h,
      List.replicate_succ]
  | succ m ih =>
    have h : alternating (m + 1 + 1) ++ List.replicate i DISK_DARK
        = DISK_DARK :: DISK_LIGHT :: (alternating (m + 1) ++ List.replicate i DISK_DARK) := rfl
    rw [h, alternate_pass_dark_light, ih]
    rfl

theorem alternate_mid_length (i m : Nat) : (alternate_mid i m).length = 2 * (i + m) := by
  simp [alternate_mid, alternating_length]; omega

theorem run_row_sched2_replicate (d i : Nat) (r : List disk_color) :
    run_row (sched2 d i) (List.replicate i DISK_LIGHT ++ r)
      = List.replicate i DISK_LIGHT ++ run_row (sched2 d 0) r := by
  induction i with
  | zero => rfl
  | succ i ih =>
    rw [sched2_succ, List.replicate_succ, List.cons_append, run_row_cons_succ, ih,
      List.cons_append]

theorem alternate_run_mid (i m : Nat) :
    run_row (sched2 (2 * (i + (m + 1)) - 1 - i) i) (alternate_mid i (m + 1))
      = alternate_mid (i + 1) m := by
  unfold alternate_mid
  rw [run_row_sched2_replicate]
  have h1 : 2 * (i + (m + 1)) - 1 - i
      = (alternating (m + 1) ++ List.replicate i DISK_DARK).length - 1 := by
    simp [alternating_length]; omega
  have h2 := alternate_pass_alternating m i
  unfold alternate_pass at h2
  rw [h1, h2, List.replicate_succ' (n := i) (a := DISK_LIGHT), List.append_assoc]
  rfl

theorem alternate_runs_mid (k : Nat) :
    ∀ (i m : Nat),
      run_row ((List.range' i k).flatMap (fun i2 => sched2 (2 * (i + (m + k)) - 1 - i2) i2))
        (alternate_mid i (m + k)) = alternate_mid (i + k) m := by
  induction k with
  | zero => intro i m; rfl
  | succ k ih =>
    intro i m
    rw [List.range'_succ, List.flatMap_cons, run_row_append]
    have h1 := alternate_run_mid i (m + k)
    rw [show m + (k + 1) = m + k + 1 by omega, h1]
    have h2 := ih (i + 1) m
    rw [show i + 1 + (m + k) = i + (m + k + 1) by omega, show i + 1 + k = i + (k + 1) by omega]
      at h2
    exact h2

theorem alternate_mid_zero (n : Nat) : alternate_mid 0 n = alternating n := by
  simp [alternate_mid]

theorem alternate_mid_light_dark (n : Nat) : alternate_mid n 0 = light_dark n n := by
  simp [alternate_mid, light_dark, alternating]

/-- The row `sort_alternate` returns for the alternating row. -/
theorem alternate_sched_alternating (n : Nat) :
    run_row (alternate_sched (alternating n).length) (alternating n) = light_dark n n := by
  rw [alternating_length]
  unfold alternate_sched
  rw [show 2 * n / 2 + 1 = n + 1 by omega, List.range'_concat, List.flatMap_append,
    run_row_append]
  have h := alternate_runs_mid n 0 0
  simp only [Nat.zero_add, alternate_mid_zero, alternate_mid_light_dark] at h
  rw [h, run_row_light_dark]

/-! ## Analysis: counts, inversions and `is_sorted` on the two special rows -/

theorem light_dark_count_light (a b : Nat) : (light_dark a b).count DISK_LIGHT = a := by
  simp [light_dark, List.count_replicate]

theorem light_dark_count_dark (a b : Nat) : (light_dark a b).count DISK_DARK = b := by
  simp [light_dark, List.count_replicate]

theorem light_dark_length (a b : Nat) : (light_dark a b).length = a + b := by
  simp [light_dark]

theorem alternating_count_light (n : Nat) : (alternating n).count DISK_LIGHT = n := by
  induction n with
  | zero => rfl
  | succ n ih => simp [alternating, ih]

theorem alternating_count_dark (n : Nat) : (alternating n).count DISK_DARK = n := by
  induction n with
  | zero => rfl
  | succ n ih => simp [alternating, ih]

theorem inversions_replicate_dark (b : Nat) : inversions (List.replicate b DISK_DARK) = 0 := by
  induction b with
  | zero => rfl
  | succ b ih => simp [List.replicate_succ, inversions, ih, List.count_replicate]

theorem inversions_light_dark (a b : Nat) : inversions (light_dark a b) = 0 := by
  induction a with
  | zero => simpa [light_dark] using inversions_replicate_dark b
  | succ a ih => rw [← light_dark_cons, inversions, ih]

theorem inversions_alternating (n : Nat) : 2 * inversions (alternating n) = n * (n + 1) := by
  induction n with
  | zero => rfl
  | succ n ih =>
    simp only [alternating, inversions, List.count_cons_self, alternating_count_light]
    rw [Nat.mul_add, Nat.mul_add, ih]
    ring

theorem is_sorted_light_dark (n : Nat) : disk_state.is_sorted (light_dark n n) = true := by
  unfold disk_state.is_sorted
  have h1 : (light_dark n n).length / 2 = n := by rw [light_dark_length]; omega
  simp only [h1]
  have h2 : (light_dark n n).take n = List.replicate n DISK_LIGHT := by
    simp [light_dark, List.take_append_eq_append_take]
  have h3 : (light_dark n n).drop n = List.replicate n DISK_DARK := by
    simp [light_dark, List.drop_append_eq_append_drop]
  rw [h2, h3]
  simp

theorem eq_replicate_of_not_mem (c d : disk_color) (hcd : ∀ x : disk_color, x ≠ c → x = d)
    (l : List disk_color) (h : c ∉ l) : l = List.replicate l.length d := by
  induction l with
  | nil => rfl
  | cons x l ih =>
    simp only [List.mem_cons, not_or] at h
    rw [List.length_cons, List.replicate_succ, ← ih h.2, hcd x (fun e => h.1 e.symm)]

/-- A row that `is_sorted` accepts is: light disks, then dark disks. -/
theorem is_sorted_eq_light_dark (row : List disk_color) (h : disk_state.is_sorted row = true) :
    row = light_dark (row.length / 2) (row.length - row.length / 2) := by
  unfold disk_state.is_sorted at h
  simp only at h
  split at h
  · exact absurd h (by decide)
  · rename_i h1
    split at h
    · exact absurd h (by decide)
    · rename_i h2
      have e1 := eq_replicate_of_not_mem DISK_DARK DISK_LIGHT
        (fun x hx => by cases x; exact rfl; exact absurd rfl hx) _ (by simpa using h1)
      have e2 := eq_replicate_of_not_mem DISK_LIGHT DISK_DARK
        (fun x hx => by cases x; exact absurd rfl hx; exact rfl) _ (by simpa using h2)
      have e3 : row = row.take (row.length / 2) ++ row.drop (row.length / 2) :=
        (List.take_append_drop _ _).symm
      rw [e1, e2] at e3
      simp only [List.length_take, List.length_drop] at e3
      rw [Nat.min_eq_left (Nat.div_le_self _ _)] at e3
      exact e3

/-! ## Analysis: the swaps behind a swap count -/

theorem apply_swaps_append (js ks : List Nat) (s : disk_state) :
    apply_swaps (js ++ ks) s = (apply_swaps js s).bind (apply_swaps ks) := by
  induction js generalizing s with
  | nil => rfl
  | cons j js ih =>
    simp only [List.cons_append, apply_swaps]
    split
    · cases hs : disk_state.swap s j with
      | none => rfl
      | some s2 => simp [ih]
    · rfl

theorem swap_some (s s2 : disk_state) (j : Nat) (hs : disk_state.swap s j = some s2) :
    j + 1 < s.length ∧ s2.length = s.length := by
  by_cases h1 : j + 1 < s.length
  · have h0 : j < s.length := by omega
    simp only [disk_state.swap, disk_state.is_index, disk_state.total_count, h0, h1,
      decide_True, if_true, List.getElem?_eq_getElem, Option.some.injEq] at hs
    subst hs
    exact ⟨h1, by simp⟩
  · simp [disk_state.swap, disk_state.is_index, disk_state.total_count, h1] at hs

theorem apply_swaps_index (js : List Nat) (s t : disk_state) (h : apply_swaps js s = some t) :
    t.length = s.length ∧ ∀ j ∈ js, j + 1 < s.length := by
  induction js generalizing s with
  | nil =>
    simp only [apply_swaps, Option.some.injEq] at h
    subst h
    simp
  | cons j js ih =>
    simp only [apply_swaps] at h
    split at h
    · cases hs : disk_state.swap s j with
      | none => rw [hs] at h; exact absurd h (by simp)
      | some s2 =>
        rw [hs] at h
        have h2 := ih s2 h
        have h3 := swap_some s s2 j hs
        constructor
        · omega
        · intro j2 hj2
          rcases List.mem_cons.1 hj2 with rfl | hmem
          · exact h3.1
          · have := h2.2 j2 hmem
            omega
    · exact absurd h (by simp)

theorem step_trace (j : Nat) (st : sorted_disks) :
    ∃ tr : List Nat,
      (tr.length + st.swap_count) % 2 ^ 32 = (step j st).swap_count % 2 ^ 32 ∧
      apply_swaps tr st.after = some (step j st).after := by
  unfold step
  split
  · rename_i hc
    refine ⟨[j], by simp [count_incr]; omega, ?_⟩
    have h1 : j + 1 < st.after.length := by
      by_contra hlt
      have hn : st.after[j + 1]? = none := List.getElem?_eq_none (by omega)
      rw [hn] at hc
      exact absurd hc.2 (by simp)
    have h0 : j < st.after.length := by omega
    simp [apply_swaps, disk_state.get, disk_state.swap, disk_state.is_index,
      disk_state.total_count, hc, h0, h1, cswap]
  · exact ⟨[], by simp, rfl⟩

/-- Every schedule amounts to a list of successful swaps, whose number is the
count modulo the range of the counter. -/
theorem run_trace (js : List Nat) (st : sorted_disks) :
    ∃ tr : List Nat,
      (tr.length + st.swap_count) % 2 ^ 32 = (run js st).swap_count % 2 ^ 32 ∧
      apply_swaps tr st.after = some (run js st).after := by
  induction js generalizing st with
  | nil => exact ⟨[], by simp [run_nil], rfl⟩
  | cons j js ih =>
    obtain ⟨t1, h1, h2⟩ := step_trace j st
    obtain ⟨t2, h3, h4⟩ := ih (step j st)
    refine ⟨t1 ++ t2, ?_, ?_⟩
    · rw [run_cons, List.length_append]; omega
    · rw [run_cons, apply_swaps_append, h2, Option.some_bind, h4]

/-! ## Analysis: summary of the two routines -/

theorem alternating_getElem? (n : Nat) :
    ∀ i, (alternating n)[i]? =
      if i < 2 * n then some (if i % 2 = 0 then DISK_DARK else DISK_LIGHT) else none := by
  induction n with
  | zero => intro i; simp [alternating]
  | succ n ih =>
    intro i
    match i with
    | 0 => simp [alternating]
    | 1 =>
      have h : 1 < 2 * (n + 1) := by omega
      simp [alternating, h]
    | i + 2 =>
      simp only [alternating, List.getElem?_cons_succ, ih i, Nat.add_mod_right]
      have h : (i + 2 < 2 * (n + 1)) ↔ (i < 2 * n) := by omega
      simp only [h]

/-- What a schedule started on a fresh counter returns. -/
theorem run_fresh (js : List Nat) (before : disk_state) :
    (run js ⟨before, 0⟩).after = run_row js before ∧
      (run js ⟨before, 0⟩).swap_count < 2 ^ 32 ∧
      (inversions (run js ⟨before, 0⟩).after + (run js ⟨before, 0⟩).swap_count) % 2 ^ 32
        = inversions before % 2 ^ 32 ∧
      ∃ tr : List Nat, tr.length % 2 ^ 32 = (run js ⟨before, 0⟩).swap_count ∧
        apply_swaps tr before = some (run js ⟨before, 0⟩).after := by
  have hlt := run_count_lt js ⟨before, 0⟩ (by norm_num)
  refine ⟨run_after _ _, hlt, ?_, ?_⟩
  · simpa using run_inversions js ⟨before, 0⟩
  · obtain ⟨tr, h1, h2⟩ := run_trace js ⟨before, 0⟩
    refine ⟨tr, ?_, h2⟩
    simp only [Nat.add_zero] at h1
    rw [h1]
    exact Nat.mod_eq_of_lt hlt

/-- What `sort_lawnmower` returns, for every row. -/
theorem sort_lawnmower_run (before : disk_state) :
    ∃ r, sort_lawnmower before = some r ∧
      r.after = run_row (lawnmower_sched before.length) before ∧
      r.swap_count < 2 ^ 32 ∧
      (inversions r.after + r.swap_count) % 2 ^ 32 = inversions before % 2 ^ 32 ∧
      ∃ tr : List Nat, tr.length % 2 ^ 32 = r.swap_count ∧
        apply_swaps tr before = some r.after := by
  obtain ⟨h1, h2, h3, h4⟩ := run_fresh (lawnmower_sched before.length) before
  exact ⟨_, sort_lawnmower_eq before, h1, h2, h3, h4⟩

/-- What `sort_alternate` returns, for every row that is not empty. -/
theorem sort_alternate_run (before : disk_state) (hs : 0 < before.length) :
    ∃ r, sort_alternate before = some r ∧
      r.after = run_row (alternate_sched before.length) before ∧
      r.swap_count < 2 ^ 32 ∧
      (inversions r.after + r.swap_count) % 2 ^ 32 = inversions before % 2 ^ 32 ∧
      ∃ tr : List Nat, tr.length % 2 ^ 32 = r.swap_count ∧
        apply_swaps tr before = some r.after := by
  obtain ⟨h1, h2, h3, h4⟩ := run_fresh (alternate_sched before.length) before
  exact ⟨_, sort_alternate_eq before hs, h1, h2, h3, h4⟩

theorem half_inversions_alternating (n : Nat) : inversions (alternating n) = n * (n + 1) / 2 := by
  have := inversions_alternating n
  omega

/-- The row `sort_lawnmower` returns for a row with as many dark as light
disks, when the length of the row fits its `int size`. -/
theorem lawnmower_sched_balanced (row : List disk_color) (n : Nat)
    (hd : row.count DISK_DARK = n) (hl : row.count DISK_LIGHT = n) (hlen : row.length = 2 * n)
    (hlt : row.length < 2 ^ 31) :
    run_row (lawnmower_sched row.length) row = light_dark n n := by
  obtain ⟨a, b, h⟩ := lawnmower_sched_sorted row (by omega) hlt
  have hp : (light_dark a b).Perm row := by
    rw [← h]; exact run_row_perm _ _
  have ha : a = n := by rw [← light_dark_count_light a b, hp.count_eq, hl]
  have hb : b = n := by rw [← light_dark_count_dark a b, hp.count_eq, hd]
  rw [h, ha, hb]

/-- On the alternating row of fewer than `2 ^ 31` disks `sort_lawnmower` returns
the light disks, then the dark disks; its count is `n (n + 1) / 2` modulo `2 ^ 32`. -/
theorem sort_lawnmower_alternating (n : Nat) (hlt : n < 2 ^ 30) :
    sort_lawnmower (alternating n) = some ⟨light_dark n n, n * (n + 1) / 2 % 2 ^ 32⟩ := by
  obtain ⟨r, h1, h2, h3, h4, _⟩ := sort_lawnmower_run (alternating n)
  rw [lawnmower_sched_balanced (alternating n) n (alternating_count_dark n)
    (alternating_count_light n) (alternating_length n)
    (by rw [alternating_length]; omega)] at h2
  rw [h2, inversions_light_dark, half_inversions_alternating, Nat.zero_add,
    Nat.mod_eq_of_lt h3] at h4
  rw [h1]
  cases r
  simp_all

/-- On the alternating row `sort_alternate` returns the light disks, then the
dark disks; its count is `n (n + 1) / 2` modulo `2 ^ 32`. -/
theorem sort_alternate_alternating (n : Nat) (hn : 0 < n) :
    sort_alternate (alternating n) = some ⟨light_dark n n, n * (n + 1) / 2 % 2 ^ 32⟩ := by
  obtain ⟨r, h1, h2, h3, h4, _⟩ := sort_alternate_run (alternating n)
    (by rw [alternating_length]; omega)
  rw [alternate_sched_alternating] at h2
  rw [h2, inversions_light_dark, half_inversions_alternating, Nat.zero_add,
    Nat.mod_eq_of_lt h3] at h4
  rw [h1]
  cases r
  simp_all

theorem light_dark_getElem? (a b i : Nat) :
    (light_dark a b)[i]? =
      if i < a then some DISK_LIGHT else if i < a + b then some DISK_DARK else none := by
  unfold light_dark
  rw [List.getElem?_append]
  simp only [List.length_replicate, List.getElem?_replicate]
  split
  · rfl
  · have h : (i - a < b) ↔ (i < a + b) := by omega
    simp only [h]

/-- The rendering of a row `light_dark a b`, token by token. -/
theorem light_dark_tokens (a b : Nat) :
    (light_dark a b).map disk_state.token = List.replicate a "L" ++ List.replicate b "D" := by
  simp [light_dark, disk_state.token]

/-! ## Analysis: the constructor, `is_initialized` and `swap` -/

theorem is_initialized_alternating (n : Nat) :
    disk_state.is_initialized (alternating n) = true := by
  unfold disk_state.is_initialized
  induction n with
  | zero => rfl
  | succ n ih => simpa [alternating, disk_state.is_initialized_loop] using ih

/-- The loop of `is_initialized` accepts exactly the rows that alternate,
starting with the colour it expects first. -/
theorem is_initialized_loop_iff (row : List disk_color) :
    (disk_state.is_initialized_loop DISK_DARK row = true ↔
      ∀ i, i < row.length →
        row[i]? = some (if i % 2 = 0 then DISK_DARK else DISK_LIGHT)) ∧
    (disk_state.is_initialized_loop DISK_LIGHT row = true ↔
      ∀ i, i < row.length →
        row[i]? = some (if i % 2 = 0 then DISK_LIGHT else DISK_DARK)) := by
  induction row with
  | nil => simp [disk_state.is_initialized_loop]
  | cons x t ih =>
    have par : ∀ i : Nat, ((i + 1) % 2 = 0) ↔ ¬ (i % 2 = 0) := fun i => by omega
    constructor
    · constructor
      · intro h i hi
        cases x
        · simp [disk_state.is_initialized_loop] at h
        · simp only [disk_state.is_initialized_loop, if_true] at h
          match i, hi with
          | 0, _ => simp
          | i + 1, hi =>
            have := ih.2.1 h i (by simpa using hi)
            rw [List.getElem?_cons_succ, this]
            by_cases hp : i % 2 = 0
            · rw [if_pos hp, if_neg ((par i).not.2 (not_not.2 hp))]
            · rw [if_neg hp, if_pos ((par i).2 hp)]
      · intro h
        have h0 := h 0 (by simp)
        simp only [List.getElem?_cons_zero, Nat.zero_mod, if_true, Option.some.injEq] at h0
        subst h0
        simp only [disk_state.is_initialized_loop, if_true]
        apply ih.2.2
        intro i hi
        have := h (i + 1) (by simpa using hi)
        rw [List.getElem?_cons_succ] at this
        rw [this]
        by_cases hp : i % 2 = 0
        · rw [if_pos hp, if_neg ((par i).not.2 (not_not.2 hp))]
        · rw [if_neg hp, if_pos ((par i).2 hp)]
    · constructor
      · intro h i hi
        cases x
        · simp only [disk_state.is_initialized_loop, if_true] at h
          match i, hi with
          | 0, _ => simp
          | i + 1, hi =>
            have := ih.1.1 h i (by simpa using hi)
            rw [List.getElem?_cons_succ, this]
            by_cases hp : i % 2 = 0
            · rw [if_pos hp, if_neg ((par i).not.2 (not_not.2 hp))]
            · rw [if_neg hp, if_pos ((par i).2 hp)]
        · simp [disk_state.is_initialized_loop] at h
      · intro h
        have h0 := h 0 (by simp)
        simp only [List.getElem?_cons_zero, Nat.zero_mod, if_true, Option.some.injEq] at h0
        subst h0
        simp only [disk_state.is_initialized_loop, if_true]
        apply ih.1.2
        intro i hi
        have := h (i + 1) (by simpa using hi)
        rw [List.getElem?_cons_succ] at this
        rw [this]
        by_cases hp : i % 2 = 0
        · rw [if_pos hp, if_neg ((par i).not.2 (not_not.2 hp))]
        · rw [if_neg hp, if_pos ((par i).2 hp)]

/-- The value of `swap` when both of its assertions hold. -/
theorem swap_eq (row : disk_state) (i : Nat) (a b : disk_color)
    (ha : row[i]? = some a) (hb : row[i + 1]? = some b) :
    disk_state.swap row i = some ((row.set i b).set (i + 1) a) := by
  have h1 : i + 1 < row.length := by
    by_contra hlt
    have hn : row[i + 1]? = none := List.getElem?_eq_none (by omega)
    rw [hn] at hb
    exact absurd hb (by simp)
  have h0 : i < row.length := by omega
  simp [disk_state.swap, disk_state.is_index, disk_state.total_count, ha, hb, h0, h1]

theorem swap_none_iff (row : disk_state) (i : Nat) :
    disk_state.swap row i = none ↔ row.length ≤ i + 1 := by
  constructor
  · intro h
    by_contra hlt
    have h1 : i + 1 < row.length := by omega
    have h0 : i < row.length := by omega
    rw [swap_eq row i row[i] row[i + 1] (List.getElem?_eq_getElem h0)
      (List.getElem?_eq_getElem h1)] at h
    exact absurd h (by simp)
  · intro h
    cases hs : disk_state.swap row i with
    | none => rfl
    | some s2 =>
      have := (swap_some row s2 i hs).1
      omega

theorem get_none_iff (row : disk_state) (i : Nat) :
    disk_state.get row i = none ↔ row.length ≤ i := by
  unfold disk_state.get disk_state.is_index disk_state.total_count
  by_cases h : i < row.length
  · simp [h]
  · simp [h]
    omega

/-! ## Analysis: inversions as pairs of indices, and the indices of the schedules -/

theorem countP_range_getElem? (c : disk_color) (t : List disk_color) :
    (List.range t.length).countP (fun j => decide (t[j]? = some c)) = t.count c := by
  induction t with
  | nil => rfl
  | cons x t ih =>
    rw [List.length_cons, List.range_succ_eq_map, List.countP_cons, List.countP_map]
    have h : ((fun j => decide ((x :: t)[j]? = some c)) ∘ Nat.succ)
        = fun j => decide (t[j]? = some c) := by
      funext j
      simp
    rw [h, ih, List.count_cons]
    simp

theorem inversion_pairs_cons (x : disk_color) (t : List disk_color) :
    inversion_pairs (x :: t)
      = (if x = DISK_DARK then t.count DISK_LIGHT else 0) + inversion_pairs t := by
  unfold inversion_pairs
  rw [List.length_cons, List.range_succ_eq_map, List.map_cons, List.sum_cons, List.map_map]
  congr 1
  · rw [List.countP_cons, List.countP_map]
    by_cases hx : x = DISK_DARK
    · subst hx
      rw [if_pos rfl, ← countP_range_getElem? DISK_LIGHT t]
      simp [Function.comp_def]
    · rw [if_neg hx]
      simp [Function.comp_def, hx]
  · congr 1
    apply List.map_congr_left
    intro i _
    rw [Function.comp_apply, List.countP_cons, List.countP_map]
    simp [Function.comp_def]

theorem inversions_eq_inversion_pairs (row : List disk_color) :
    inversions row = inversion_pairs row := by
  induction row with
  | nil => rfl
  | cons x t ih =>
    rw [inversion_pairs_cons, ← ih]
    cases x
    · simp [inversions]
    · simp [inversions]

theorem mem_sched2 (d i j : Nat) (h : j ∈ sched2 d i) : i ≤ j ∧ j < i + d := by
  induction d, i using sched2.induct with
  | case1 i => simp [sched2] at h
  | case2 i =>
    simp only [sched2, List.mem_singleton] at h
    omega
  | case3 d i ih =>
    simp only [sched2, List.mem_cons] at h
    rcases h with h | h
    · omega
    · have := ih h
      omega

theorem mem_lawnmower_sched_of_size (size j : Nat) (h : j ∈ lawnmower_sched_of_size size) :
    j + 1 < size := by
  unfold lawnmower_sched_of_size lawnmower_round_sched at h
  simp only [List.mem_flatMap, List.mem_append, List.mem_range', List.mem_reverse,
    List.mem_range] at h
  obtain ⟨_, _, h | h⟩ := h
  · obtain ⟨k, hk, rfl⟩ := h
    omega
  · omega

theorem mem_lawnmower_sched (len j : Nat) (h : j ∈ lawnmower_sched len) : j + 1 < len := by
  have h1 := mem_lawnmower_sched_of_size _ j h
  have h2 := int_of_size_t_toNat_le len
  omega

theorem mem_alternate_sched (size j : Nat) (h : j ∈ alternate_sched size) : j + 1 < size := by
  unfold alternate_sched at h
  simp only [List.mem_flatMap] at h
  obtain ⟨i, _, h⟩ := h
  have := mem_sched2 _ _ _ h
  omega

/-- The swap count of `sort_lawnmower` is the number of inversions of its input
modulo `2 ^ 32`, when the length of the row is even and fits its `int size`. -/
theorem sort_lawnmower_swap_count (row : disk_state) (h : row.length % 2 = 0)
    (hlt : row.length < 2 ^ 31) :
    ∃ r, sort_lawnmower row = some r ∧ r.swap_count = inversion_pairs row % 2 ^ 32 := by
  obtain ⟨r, h1, h2, h3, h4, _⟩ := sort_lawnmower_run row
  obtain ⟨a, b, h5⟩ := lawnmower_sched_sorted row h hlt
  rw [h2, h5, inversions_light_dark, inversions_eq_inversion_pairs, Nat.zero_add,
    Nat.mod_eq_of_lt h3] at h4
  exact ⟨r, h1, h4⟩


/-! ## Analysis: where the widths of the machine integers show -/

theorem lawnmower_sched_negative (len : Nat) (h : 2 ^ 31 ≤ len % 2 ^ 32) :
    lawnmower_sched len = [] := by
  unfold lawnmower_sched
  rcases int_of_size_t_cases len with ⟨_, _, h3⟩ | ⟨_, h2, _⟩
  · omega
  · rw [h2]
    rfl

/-- When the length of the row is negative as an `int`, `sort_lawnmower` runs
no round and returns the row as it was, with count zero. -/
theorem sort_lawnmower_negative_size (row : disk_state) (h : 2 ^ 31 ≤ row.length % 2 ^ 32) :
    sort_lawnmower row = some ⟨row, 0⟩ := by
  rw [sort_lawnmower_eq, lawnmower_sched_negative _ h]
  rfl

/-- The alternating row is not one that `is_sorted` accepts. -/
theorem is_sorted_alternating (n : Nat) (hn : 0 < n) :
    disk_state.is_sorted (alternating n) = false := by
  cases hs : disk_state.is_sorted (alternating n) with
  | false => rfl
  | true =>
    have h1 := is_sorted_eq_light_dark _ hs
    have h2 := congrArg (fun l : List disk_color => l[0]?) h1
    have e1 : 2 * n / 2 = n := by omega
    have e2 : 0 < 2 * n := by omega
    simp only [alternating_getElem?, light_dark_getElem?, alternating_length, e1, e2, hn,
      if_true, Nat.zero_mod] at h2
    exact absurd h2 (by decide)

theorem get_some (s : disk_state) (j : Nat) (c : disk_color)
    (h : disk_state.get s j = some c) : s[j]? = some c := by
  unfold disk_state.get at h
  split at h
  · exact h
  · exact absurd h (by simp)

/-- Each swap that `apply_swaps` makes removes one inversion. -/
theorem apply_swaps_inversions (tr : List Nat) (s t : disk_state)
    (h : apply_swaps tr s = some t) : inversions s = inversions t + tr.length := by
  induction tr generalizing s with
  | nil =>
    simp only [apply_swaps, Option.some.injEq] at h
    subst h
    rfl
  | cons j tr ih =>
    simp only [apply_swaps] at h
    split at h
    · rename_i hc
      have ha := get_some s j _ hc.1
      have hb := get_some s (j + 1) _ hc.2
      rw [swap_eq s j _ _ ha hb, Option.some_bind] at h
      have h1 := ih _ h
      have h2 := cswap_inversions j s
      rw [if_pos ⟨ha, hb⟩] at h2
      have h3 : cswap j s = (s.set j DISK_LIGHT).set (j + 1) DISK_DARK := by
        unfold cswap
        rw [if_pos ⟨ha, hb⟩]
      rw [h3] at h2
      rw [List.length_cons]
      omega
    · exact absurd h (by simp)

theorem inversion_pairs_alternating (n : Nat) :
    inversion_pairs (alternating n) = n * (n + 1) / 2 := by
  rw [← inversions_eq_inversion_pairs, half_inversions_alternating]

/-- On the alternating row every list of swaps that leads to the sorted row has
`n (n + 1) / 2` entries. -/
theorem apply_swaps_alternating (n : Nat) (tr : List Nat)
    (h : apply_swaps tr (alternating n) = some (light_dark n n)) :
    tr.length = n * (n + 1) / 2 := by
  have h1 := apply_swaps_inversions tr _ _ h
  rw [inversions_light_dark, half_inversions_alternating] at h1
  omega

/-- The swaps that sort the alternating row. -/
theorem alternating_trace (n : Nat) (hn : 0 < n) :
    ∃ tr : List Nat, tr.length = n * (n + 1) / 2 ∧
      apply_swaps tr (alternating n) = some (light_dark n n) := by
  obtain ⟨r, h1, _, _, _, tr, _, h2⟩ := sort_alternate_run (alternating n)
    (by rw [alternating_length]; omega)
  rw [sort_alternate_alternating n hn] at h1
  have h3 := Option.some.inj h1
  subst h3
  exact ⟨tr, apply_swaps_alternating n tr h2, h2⟩

/-! ## The claims -/

/-- C1 fails in the code at `n = 2 ^ 30`: the row `disk_state(2 ^ 30)` has
`2 ^ 31` disks, the `int size` of `sort_lawnmower` is negative, no round runs,
the alternating row is returned as it was, and `is_sorted()` is false of it. -/
theorem sort_lawnmower_leaves_canonical_row_unsorted :
    ∃ before r, disk_state.create (2 ^ 30) = some before ∧
      before.length = 2 * 2 ^ 30 ∧
      int_of_size_t before.total_count = -2 ^ 31 ∧
      sort_lawnmower before = some r ∧
      r.after = before ∧ r.swap_count = 0 ∧
      r.after.is_sorted = false :=
  ⟨alternating (2 ^ 30), ⟨alternating (2 ^ 30), 0⟩,
    create_eq _ (by norm_num) (by norm_num), alternating_length _,
    by simp only [disk_state.total_count, alternating_length]; decide,
    sort_lawnmower_negative_size _ (by rw [alternating_length]; norm_num),
    rfl, rfl, is_sorted_alternating _ (by norm_num)⟩

/-- C2 fails in the code at `n = 2 ^ 63`: the product `light_count * 2` of the
constructor wraps around to zero, `disk_state(2 ^ 63)` is the empty row, and
`sort_alternate` fails the assertion of `get(0)` on it, so it returns no row. -/
theorem sort_alternate_fails_on_wrapped_row :
    ∃ before, disk_state.create (2 ^ 63) = some before ∧
      before.length = 0 ∧ before.length ≠ 2 * 2 ^ 63 ∧
      size_t_pred before.total_count = SIZE_MAX ∧
      disk_state.get before 0 = none ∧
      sort_alternate before = none :=
  ⟨[], create_wraps, rfl, by decide, by decide, by decide, by decide⟩

/-- C3, as stated, fails at `n = 2`: on `disk_state(2)` both routines return the
row light, light, dark, dark (rendered "L L D D"), which is not the row dark,
dark, light, light (rendered "D D L L"). -/
theorem sorted_row_dark_first_counterexample :
    ∃ before r1 r2, disk_state.create 2 = some before ∧
      sort_lawnmower before = some r1 ∧ sort_alternate before = some r2 ∧
      r1.after = [DISK_LIGHT, DISK_LIGHT, DISK_DARK, DISK_DARK] ∧
      r2.after = [DISK_LIGHT, DISK_LIGHT, DISK_DARK, DISK_DARK] ∧
      r1.after ≠ List.replicate 2 DISK_DARK ++ List.replicate 2 DISK_LIGHT ∧
      r2.after ≠ List.replicate 2 DISK_DARK ++ List.replicate 2 DISK_LIGHT ∧
      r1.after.to_string = "L L D D" ∧ r2.after.to_string = "L L D D" :=
  ⟨[DISK_DARK, DISK_LIGHT, DISK_DARK, DISK_LIGHT],
    ⟨[DISK_LIGHT, DISK_LIGHT, DISK_DARK, DISK_DARK], 3⟩,
    ⟨[DISK_LIGHT, DISK_LIGHT, DISK_DARK, DISK_DARK], 3⟩,
    by decide, by decide, by decide, rfl, rfl, by decide, by decide, by decide, by decide⟩

/-- C3, amended: for every `n` with `1 ≤ n < 2 ^ 30`, both `sort_lawnmower` and
`sort_alternate` applied to `disk_state(n)` return the row that holds light at
every index in `[0, n)` and dark at every index in `[n, 2 n)`, rendered as `n`
tokens "L" followed by `n` tokens "D", one space between tokens. -/
theorem sorted_row_light_first (n : Nat) (hn : 1 ≤ n) (hlt : n < 2 ^ 30) :
    ∃ before r1 r2, disk_state.create n = some before ∧
      sort_lawnmower before = some r1 ∧ sort_alternate before = some r2 ∧
      r1.after = r2.after ∧
      r1.after.length = 2 * n ∧
      (∀ i, i < n → r1.after[i]? = some DISK_LIGHT) ∧
      (∀ i, n ≤ i → i < 2 * n → r1.after[i]? = some DISK_DARK) ∧
      r1.after.to_string = " ".intercalate (List.replicate n "L" ++ List.replicate n "D") := by
  refine ⟨alternating n, _, _, create_eq n (by omega) (by omega),
    sort_lawnmower_alternating n hlt, sort_alternate_alternating n (by omega), rfl, ?_, ?_, ?_, ?_⟩
  · simp only [light_dark_length]; omega
  · intro i hi
    simp only [light_dark_getElem?, if_pos hi]
  · intro i h1 h2
    simp only [light_dark_getElem?]
    rw [if_neg (by omega), if_pos (by omega)]
  · simp only [disk_state.to_string, light_dark_tokens]

theorem sorted_row_light_first_witness :
    ∃ before r1 r2, disk_state.create 4 = some before ∧
      sort_lawnmower before = some r1 ∧ sort_alternate before = some r2 ∧
      r1.after = r2.after ∧
      r1.after.length = 2 * 4 ∧
      (∀ i, i < 4 → r1.after[i]? = some DISK_LIGHT) ∧
      (∀ i, 4 ≤ i → i < 2 * 4 → r1.after[i]? = some DISK_DARK) ∧
      r1.after.to_string = " ".intercalate (List.replicate 4 "L" ++ List.replicate 4 "D") :=
  sorted_row_light_first 4 (by decide) (by decide)

/-- C4 fails in the code at `n = 92682`: the 32-bit counter wraps around, and
`sort_alternate` returns the swap count 55607 for `disk_state(92682)`, where
`n (n + 1) / 2` is 4295022903. -/
theorem sort_alternate_swap_count_wraps :
    ∃ before r, disk_state.create 92682 = some before ∧
      sort_alternate before = some r ∧
      r.swap_count = 55607 ∧
      92682 * (92682 + 1) / 2 = 4295022903 ∧
      r.swap_count ≠ 92682 * (92682 + 1) / 2 :=
  ⟨alternating 92682, ⟨light_dark 92682 92682, 92682 * (92682 + 1) / 2 % 2 ^ 32⟩,
    create_eq _ (by norm_num) (by norm_num), sort_alternate_alternating _ (by norm_num),
    by decide, by decide, by decide⟩

/-- C5, as stated, fails at `n = 2`: on `disk_state(2)` both routines return the
swap count 3, so the count of `sort_alternate` is not the smaller one. -/
theorem swap_count_strictly_smaller_counterexample :
    ∃ before r1 r2, disk_state.create 2 = some before ∧
      sort_alternate before = some r1 ∧ sort_lawnmower before = some r2 ∧
      r1.swap_count = 3 ∧ r2.swap_count = 3 ∧ ¬ (r1.swap_count < r2.swap_count) :=
  ⟨[DISK_DARK, DISK_LIGHT, DISK_DARK, DISK_LIGHT],
    ⟨[DISK_LIGHT, DISK_LIGHT, DISK_DARK, DISK_DARK], 3⟩,
    ⟨[DISK_LIGHT, DISK_LIGHT, DISK_DARK, DISK_DARK], 3⟩,
    by decide, by decide, by decide, rfl, rfl, by decide⟩

/-- C5, amended: for every `n` with `1 ≤ n < 2 ^ 30`, the swap count
`sort_alternate` returns for the row `disk_state(n)` equals the swap count
`sort_lawnmower` returns for the same row. -/
theorem swap_count_equal (n : Nat) (hn : 1 ≤ n) (hlt : n < 2 ^ 30) :
    ∃ before r1 r2, disk_state.create n = some before ∧
      sort_alternate before = some r1 ∧ sort_lawnmower before = some r2 ∧
      r1.swap_count = r2.swap_count :=
  ⟨alternating n, _, _, create_eq n (by omega) (by omega),
    sort_alternate_alternating n (by omega), sort_lawnmower_alternating n hlt, rfl⟩

theorem swap_count_equal_witness :
    ∃ before r1 r2, disk_state.create 3 = some before ∧
      sort_alternate before = some r1 ∧ sort_lawnmower before = some r2 ∧
      r1.swap_count = r2.swap_count :=
  swap_count_equal 3 (by decide) (by decide)

/-- C6: for every row of length `2 n`, `n ≥ 1`, of which `is_sorted()` is true,
both `sort_lawnmower` and `sort_alternate` return the swap count 0 and a row
equal to the input row, index by index. -/
theorem sorted_input_unchanged (row : disk_state) (n : Nat) (hlen : row.length = 2 * n)
    (hn : 1 ≤ n) (hs : row.is_sorted = true) :
    sort_lawnmower row = some ⟨row, 0⟩ ∧ sort_alternate row = some ⟨row, 0⟩ ∧
      ∀ r, (sort_lawnmower row = some r ∨ sort_alternate row = some r) →
        r.swap_count = 0 ∧ r.after.length = row.length ∧ ∀ i : Nat, r.after[i]? = row[i]? := by
  have h1 := is_sorted_eq_light_dark row hs
  have h2 : sort_lawnmower row = some ⟨row, 0⟩ := by
    rw [sort_lawnmower_eq, run_light_dark _ _ _ ⟨row, 0⟩ h1]
  have h3 : sort_alternate row = some ⟨row, 0⟩ := by
    rw [sort_alternate_eq row (by omega), run_light_dark _ _ _ ⟨row, 0⟩ h1]
  refine ⟨h2, h3, ?_⟩
  intro r hr
  have h4 : r = ⟨row, 0⟩ := by
    rcases hr with hr | hr
    · rw [h2] at hr; exact (Option.some.inj hr).symm
    · rw [h3] at hr; exact (Option.some.inj hr).symm
  subst h4
  exact ⟨rfl, rfl, fun _ => rfl⟩

theorem sorted_input_unchanged_witness :
    sort_lawnmower [DISK_LIGHT, DISK_LIGHT, DISK_DARK, DISK_DARK]
        = some ⟨[DISK_LIGHT, DISK_LIGHT, DISK_DARK, DISK_DARK], 0⟩ ∧
      sort_alternate [DISK_LIGHT, DISK_LIGHT, DISK_DARK, DISK_DARK]
        = some ⟨[DISK_LIGHT, DISK_LIGHT, DISK_DARK, DISK_DARK], 0⟩ ∧
      ∀ r, (sort_lawnmower [DISK_LIGHT, DISK_LIGHT, DISK_DARK, DISK_DARK] = some r ∨
          sort_alternate [DISK_LIGHT, DISK_LIGHT, DISK_DARK, DISK_DARK] = some r) →
        r.swap_count = 0 ∧
          r.after.length = [DISK_LIGHT, DISK_LIGHT, DISK_DARK, DISK_DARK].length ∧
          ∀ i : Nat, r.after[i]? = [DISK_LIGHT, DISK_LIGHT, DISK_DARK, DISK_DARK][i]? :=
  sorted_input_unchanged [DISK_LIGHT, DISK_LIGHT, DISK_DARK, DISK_DARK] 2 (by decide)
    (by decide) (by decide)

/-- C7, as stated, fails on the row dark, dark, light, light (`n = 2`): every
dark disk is at an index below 2 and every light disk at an index from 2 on,
and `is_sorted()` is false. -/
theorem is_sorted_dark_first_counterexample :
    disk_state.is_sorted [DISK_DARK, DISK_DARK, DISK_LIGHT, DISK_LIGHT] = false ∧
      (∀ i, i < 4 →
        [DISK_DARK, DISK_DARK, DISK_LIGHT, DISK_LIGHT][i]? = some DISK_DARK → i < 2) ∧
      (∀ i, i < 4 →
        [DISK_DARK, DISK_DARK, DISK_LIGHT, DISK_LIGHT][i]? = some DISK_LIGHT → 2 ≤ i) := by
  decide

/-- C7, amended: on a row of length `2 n`, `is_sorted()` returns true if and
only if every light disk is at an index in `[0, n)` and every dark disk is at
an index in `[n, 2 n)`. -/
theorem is_sorted_iff_light_first (row : disk_state) (n : Nat) (hlen : row.length = 2 * n) :
    row.is_sorted = true ↔
      (∀ i, row[i]? = some DISK_LIGHT → i < n) ∧
      (∀ i, row[i]? = some DISK_DARK → n ≤ i ∧ i < 2 * n) := by
  constructor
  · intro hs
    have h1 := is_sorted_eq_light_dark row hs
    rw [hlen, show 2 * n / 2 = n by omega, show 2 * n - n = n by omega] at h1
    constructor
    · intro i hi
      rw [h1] at hi
      exact light_dark_getElem?_light n n i hi
    · intro i hi
      have h2 : i < row.length := by
        by_contra hge
        have hnone : row[i]? = none := List.getElem?_eq_none (by omega)
        rw [hnone] at hi
        exact absurd hi (by simp)
      rw [h1] at hi
      exact ⟨light_dark_getElem?_dark n n i hi, by omega⟩
  · rintro ⟨hl, hd⟩
    have h1 : row = light_dark n n := by
      apply List.ext_getElem?
      intro i
      rw [light_dark_getElem?]
      by_cases h2 : i < row.length
      · rw [List.getElem?_eq_getElem h2]
        have h3 : row[i]? = some row[i] := List.getElem?_eq_getElem h2
        cases hc : row[i] with
        | DISK_LIGHT =>
          rw [hc] at h3
          rw [if_pos (hl i h3)]
        | DISK_DARK =>
          rw [hc] at h3
          have := hd i h3
          rw [if_neg (by omega), if_pos (by omega)]
      · rw [List.getElem?_eq_none (by omega), if_neg (by omega), if_neg (by omega)]
    rw [h1]
    exact is_sorted_light_dark n

theorem is_sorted_iff_light_first_witness :
    disk_state.is_sorted [DISK_LIGHT, DISK_DARK] = true ↔
      (∀ i, [DISK_LIGHT, DISK_DARK][i]? = some DISK_LIGHT → i < 1) ∧
      (∀ i, [DISK_LIGHT, DISK_DARK][i]? = some DISK_DARK → 1 ≤ i ∧ i < 2 * 1) :=
  is_sorted_iff_light_first [DISK_LIGHT, DISK_DARK] 1 (by decide)

/-- C8 fails in the code: `operator==` compares `disk_state(1)` with the first
two disks of `disk_state(2)` only and returns true, although the lengths of the
two rows differ. -/
theorem equals_ignores_longer_rhs :
    ∃ a b, disk_state.create 1 = some a ∧ disk_state.create 2 = some b ∧
      a.length = 2 ∧ b.length = 4 ∧ disk_state.equals a b = some true :=
  ⟨[DISK_DARK, DISK_LIGHT], [DISK_DARK, DISK_LIGHT, DISK_DARK, DISK_LIGHT],
    by decide, by decide, rfl, rfl, by decide⟩

/-- C9: for every row of length `2 n`, `n ≥ 1`, the row each of
`sort_lawnmower` and `sort_alternate` returns has the length of the input, as
many dark disks and as many light disks as the input, and is a permutation of it. -/
theorem sort_preserves_disks (row : disk_state) (n : Nat) (hlen : row.length = 2 * n)
    (hn : 1 ≤ n) :
    ∃ r1 r2, sort_lawnmower row = some r1 ∧ sort_alternate row = some r2 ∧
      (r1.after.length = row.length ∧
        r1.after.count DISK_DARK = row.count DISK_DARK ∧
        r1.after.count DISK_LIGHT = row.count DISK_LIGHT ∧ r1.after.Perm row) ∧
      (r2.after.length = row.length ∧
        r2.after.count DISK_DARK = row.count DISK_DARK ∧
        r2.after.count DISK_LIGHT = row.count DISK_LIGHT ∧ r2.after.Perm row) := by
  obtain ⟨r1, h1, h2, _, _⟩ := sort_lawnmower_run row
  obtain ⟨r2, h3, h4, _, _⟩ := sort_alternate_run row (by omega)
  have p1 : r1.after.Perm row := by rw [h2]; exact run_row_perm _ _
  have p2 : r2.after.Perm row := by rw [h4]; exact run_row_perm _ _
  exact ⟨r1, r2, h1, h3, ⟨p1.length_eq, p1.count_eq _, p1.count_eq _, p1⟩,
    ⟨p2.length_eq, p2.count_eq _, p2.count_eq _, p2⟩⟩

theorem sort_preserves_disks_witness :
    ∃ r1 r2, sort_lawnmower [DISK_DARK, DISK_DARK, DISK_LIGHT, DISK_LIGHT] = some r1 ∧
      sort_alternate [DISK_DARK, DISK_DARK, DISK_LIGHT, DISK_LIGHT] = some r2 ∧
      (r1.after.length = [DISK_DARK, DISK_DARK, DISK_LIGHT, DISK_LIGHT].length ∧
        r1.after.count DISK_DARK
          = [DISK_DARK, DISK_DARK, DISK_LIGHT, DISK_LIGHT].count DISK_DARK ∧
        r1.after.count DISK_LIGHT
          = [DISK_DARK, DISK_DARK, DISK_LIGHT, DISK_LIGHT].count DISK_LIGHT ∧
        r1.after.Perm [DISK_DARK, DISK_DARK, DISK_LIGHT, DISK_LIGHT]) ∧
      (r2.after.length = [DISK_DARK, DISK_DARK, DISK_LIGHT, DISK_LIGHT].length ∧
        r2.after.count DISK_DARK
          = [DISK_DARK, DISK_DARK, DISK_LIGHT, DISK_LIGHT].count DISK_DARK ∧
        r2.after.count DISK_LIGHT
          = [DISK_DARK, DISK_DARK, DISK_LIGHT, DISK_LIGHT].count DISK_LIGHT ∧
        r2.after.Perm [DISK_DARK, DISK_DARK, DISK_LIGHT, DISK_LIGHT]) :=
  sort_preserves_disks [DISK_DARK, DISK_DARK, DISK_LIGHT, DISK_LIGHT] 2 (by decide) (by decide)

/-- C10 fails in the code on `disk_state(92682)`: both routines return the
swap count 55607, while the row they return is the input row after 4295022903
calls `swap(j)`, each made with dark at `j` and light at `j + 1`, and after no
other number of such calls. -/
theorem swap_count_is_not_number_of_swaps :
    ∃ before r1 r2, disk_state.create 92682 = some before ∧
      sort_lawnmower before = some r1 ∧ sort_alternate before = some r2 ∧
      r1.swap_count = 55607 ∧ r2.swap_count = 55607 ∧
      (∃ tr : List Nat, tr.length = 4295022903 ∧ apply_swaps tr before = some r1.after) ∧
      (∃ tr : List Nat, tr.length = 4295022903 ∧ apply_swaps tr before = some r2.after) ∧
      (∀ tr : List Nat, apply_swaps tr before = some r1.after → tr.length = 4295022903) ∧
      (∀ tr : List Nat, apply_swaps tr before = some r2.after → tr.length = 4295022903) := by
  have e : 92682 * (92682 + 1) / 2 = 4295022903 := by norm_num
  obtain ⟨tr, h1, h2⟩ := alternating_trace 92682 (by norm_num)
  rw [e] at h1
  have h3 : ∀ tr : List Nat, apply_swaps tr (alternating 92682) = some (light_dark 92682 92682) →
      tr.length = 4295022903 := fun tr2 h => by
    rw [← e]
    exact apply_swaps_alternating 92682 tr2 h
  exact ⟨alternating 92682,
    ⟨light_dark 92682 92682, 92682 * (92682 + 1) / 2 % 2 ^ 32⟩,
    ⟨light_dark 92682 92682, 92682 * (92682 + 1) / 2 % 2 ^ 32⟩,
    create_eq _ (by norm_num) (by norm_num), sort_lawnmower_alternating _ (by norm_num),
    sort_alternate_alternating _ (by norm_num), by decide, by decide,
    ⟨tr, h1, h2⟩, ⟨tr, h1, h2⟩, h3, h3⟩

/-- C11, as stated, fails: on `disk_state(1)`, rendered "D L", both routines
swap the two disks once; the row returned is rendered "L D", not "D L", and
the swap count is 1, not 0. -/
theorem one_pair_unchanged_counterexample :
    ∃ before r1 r2, disk_state.create 1 = some before ∧
      before.to_string = "D L" ∧
      sort_lawnmower before = some r1 ∧ sort_alternate before = some r2 ∧
      r1.after ≠ before ∧ r2.after ≠ before ∧
      r1.after.to_string ≠ "D L" ∧ r2.after.to_string ≠ "D L" ∧
      r1.swap_count ≠ 0 ∧ r2.swap_count ≠ 0 :=
  ⟨[DISK_DARK, DISK_LIGHT], ⟨[DISK_LIGHT, DISK_DARK], 1⟩, ⟨[DISK_LIGHT, DISK_DARK], 1⟩,
    by decide, by decide, by decide, by decide, by decide, by decide, by decide, by decide,
    by decide, by decide⟩

/-- C11, amended: applied to the row `disk_state(1)`, rendered "D L", both
`sort_lawnmower` and `sort_alternate` return the row rendered "L D" with swap
count 1. -/
theorem one_pair_swapped_once :
    ∃ before, disk_state.create 1 = some before ∧
      before.to_string = "D L" ∧
      sort_lawnmower before = some ⟨[DISK_LIGHT, DISK_DARK], 1⟩ ∧
      sort_alternate before = some ⟨[DISK_LIGHT, DISK_DARK], 1⟩ ∧
      disk_state.to_string [DISK_LIGHT, DISK_DARK] = "L D" :=
  ⟨[DISK_DARK, DISK_LIGHT], by decide, by decide, by decide, by decide, by decide⟩

/-- C12, as stated, fails: on `disk_state(2)`, rendered "D L D L",
`sort_alternate` returns the swap count 3, not 2. -/
theorem two_pairs_two_swaps_counterexample :
    ∃ before r, disk_state.create 2 = some before ∧
      before.to_string = "D L D L" ∧
      sort_alternate before = some r ∧ r.swap_count = 3 ∧ r.swap_count ≠ 2 :=
  ⟨[DISK_DARK, DISK_LIGHT, DISK_DARK, DISK_LIGHT],
    ⟨[DISK_LIGHT, DISK_LIGHT, DISK_DARK, DISK_DARK], 3⟩,
    by decide, by decide, by decide, rfl, by decide⟩

/-- C12, amended: applied to the row `disk_state(2)`, rendered "D L D L",
`sort_alternate` returns the swap count 3: two swaps in run 0 (at indices 0
and 2), one in run 1 (at index 1), none in run 2. -/
theorem two_pairs_three_swaps :
    ∃ before, disk_state.create 2 = some before ∧
      before.to_string = "D L D L" ∧
      sort_alternate before
        = some ⟨[DISK_LIGHT, DISK_LIGHT, DISK_DARK, DISK_DARK], 3⟩ ∧
      alternate_run 4 0 ⟨before, 0⟩
        = some ⟨[DISK_LIGHT, DISK_DARK, DISK_LIGHT, DISK_DARK], 2⟩ ∧
      alternate_run 4 1 ⟨[DISK_LIGHT, DISK_DARK, DISK_LIGHT, DISK_DARK], 2⟩
        = some ⟨[DISK_LIGHT, DISK_LIGHT, DISK_DARK, DISK_DARK], 3⟩ ∧
      alternate_run 4 2 ⟨[DISK_LIGHT, DISK_LIGHT, DISK_DARK, DISK_DARK], 3⟩
        = some ⟨[DISK_LIGHT, DISK_LIGHT, DISK_DARK, DISK_DARK], 3⟩ :=
  ⟨[DISK_DARK, DISK_LIGHT, DISK_DARK, DISK_LIGHT], by decide, by decide, by decide,
    by decide, by decide, by decide⟩

/-- C13 fails in the code at `n = 2 ^ 63`: the product `light_count * 2` wraps
around to zero while the assertion `light_count > 0` holds, so
`disk_state(2 ^ 63)` is the empty row: its `total_count()` is 0, not `2 n`, and
its `light_count()` and `dark_count()` are 0, not `n`. -/
theorem create_wraps_to_empty_row :
    ∃ s, disk_state.create (2 ^ 63) = some s ∧
      s.length = 0 ∧
      s.total_count = 0 ∧ s.light_count = 0 ∧ s.dark_count = 0 ∧
      s.total_count ≠ 2 * 2 ^ 63 ∧ s.light_count ≠ 2 ^ 63 ∧ s.dark_count ≠ 2 ^ 63 :=
  ⟨[], create_wraps, rfl, rfl, rfl, rfl, by decide, by decide, by decide⟩

/-- C14: `is_initialized()` returns true if and only if the row holds dark at
every even index and light at every odd index. -/
theorem is_initialized_iff (row : disk_state) :
    row.is_initialized = true ↔
      ∀ i, i < row.length →
        row[i]? = some (if i % 2 = 0 then DISK_DARK else DISK_LIGHT) :=
  (is_initialized_loop_iff row).1

/-- C15: for every row and every index `i` with `i + 1 < length`, `swap(i)`
succeeds, exchanges the colours at the positions `i` and `i + 1`, leaves the
colour at every other index and the length as they were, and a second
`swap(i)` gives the original row back. -/
theorem swap_exchanges_neighbours (row : disk_state) (i : Nat) (h : i + 1 < row.length) :
    ∃ s, disk_state.swap row i = some s ∧
      s.length = row.length ∧
      s[i]? = row[i + 1]? ∧ s[i + 1]? = row[i]? ∧
      (∀ k : Nat, k ≠ i → k ≠ i + 1 → s[k]? = row[k]?) ∧
      disk_state.swap s i = some row := by
  have h0 : i < row.length := by omega
  have ha : row[i]? = some row[i] := List.getElem?_eq_getElem h0
  have hb : row[i + 1]? = some row[i + 1] := List.getElem?_eq_getElem h
  have e1 : ((row.set i row[i + 1]).set (i + 1) row[i])[i]? = some row[i + 1] := by
    rw [List.getElem?_set, if_neg (by omega), List.getElem?_set, if_pos rfl, if_pos h0]
  have e2 : ((row.set i row[i + 1]).set (i + 1) row[i])[i + 1]? = some row[i] := by
    rw [List.getElem?_set, if_pos rfl, if_pos (by simpa using h)]
  have e3 : ∀ k : Nat, k ≠ i → k ≠ i + 1 →
      ((row.set i row[i + 1]).set (i + 1) row[i])[k]? = row[k]? := by
    intro k h1 h2
    rw [List.getElem?_set, if_neg (fun e => h2 e.symm), List.getElem?_set,
      if_neg (fun e => h1 e.symm)]
  refine ⟨_, swap_eq row i _ _ ha hb, by simp, ?_, ?_, e3, ?_⟩
  · rw [e1, hb]
  · rw [e2, ha]
  · rw [swap_eq _ i _ _ e1 e2]
    congr 1
    apply List.ext_getElem?
    intro k
    by_cases hk1 : k = i + 1
    · subst hk1
      rw [List.getElem?_set, if_pos rfl, if_pos (by simpa using h), hb]
    · by_cases hk0 : k = i
      · subst hk0
        rw [List.getElem?_set, if_neg (fun e => hk1 e.symm), List.getElem?_set, if_pos rfl,
          if_pos (by simpa using h0), ha]
      · rw [List.getElem?_set, if_neg (fun e => hk1 e.symm), List.getElem?_set,
          if_neg (fun e => hk0 e.symm), e3 k hk0 hk1]

theorem swap_exchanges_neighbours_witness :
    ∃ s, disk_state.swap [DISK_DARK, DISK_LIGHT, DISK_DARK, DISK_LIGHT] 1 = some s ∧
      s.length = [DISK_DARK, DISK_LIGHT, DISK_DARK, DISK_LIGHT].length ∧
      s[1]? = [DISK_DARK, DISK_LIGHT, DISK_DARK, DISK_LIGHT][1 + 1]? ∧
      s[1 + 1]? = [DISK_DARK, DISK_LIGHT, DISK_DARK, DISK_LIGHT][1]? ∧
      (∀ k : Nat, k ≠ 1 → k ≠ 1 + 1 →
        s[k]? = [DISK_DARK, DISK_LIGHT, DISK_DARK, DISK_LIGHT][k]?) ∧
      disk_state.swap s 1 = some [DISK_DARK, DISK_LIGHT, DISK_DARK, DISK_LIGHT] :=
  swap_exchanges_neighbours [DISK_DARK, DISK_LIGHT, DISK_DARK, DISK_LIGHT] 1 (by decide)

/-- C16: the three preconditions are the only rejections: `disk_state(n)` is
rejected if and only if `n = 0`; `get(i)` if and only if `length ≤ i`, so
`get(length)` is rejected; `swap(i)` if and only if `length ≤ i + 1`, so
`swap(length - 1)` is rejected; and an accepted `get(i)` returns the colour
stored at `i`. -/
theorem rejected_iff_precondition_violated (n : Nat) (row : disk_state) (i : Nat) :
    (disk_state.create n = none ↔ n = 0) ∧
      (disk_state.get row i = none ↔ row.length ≤ i) ∧
      (disk_state.swap row i = none ↔ row.length ≤ i + 1) ∧
      disk_state.get row row.length = none ∧
      disk_state.swap row (row.length - 1) = none ∧
      (∀ c, disk_state.get row i = some c ↔ (i < row.length ∧ row[i]? = some c)) := by
  refine ⟨?_, get_none_iff row i, swap_none_iff row i, (get_none_iff row _).2 (le_refl _),
    (swap_none_iff row _).2 (by omega), ?_⟩
  · by_cases hn : 0 < n
    · simp [disk_state.create, hn]
      omega
    · obtain rfl : n = 0 := by omega
      simp [disk_state.create]
  · intro c
    unfold disk_state.get disk_state.is_index disk_state.total_count
    by_cases h : i < row.length
    · simp [h]
    · simp [h]

/-- C17: for every row of length `2 n`, `n ≥ 1`, in any arrangement, both
`sort_lawnmower` and `sort_alternate` return a result, so no `get` and no
`swap` they call fails its assertion (a failed assertion is the value `none`,
which every loop passes on); each routine is the run of guarded swaps at the
indices of its schedule, and every index `j` of a schedule has `j + 1 < length`,
which is the precondition of `get(j)`, `get(j + 1)` and `swap(j)`. -/
theorem sorts_respect_bounds (row : disk_state) (n : Nat) (hlen : row.length = 2 * n)
    (hn : 1 ≤ n) :
    (∃ r, sort_lawnmower row = some r) ∧ (∃ r, sort_alternate row = some r) ∧
      sort_lawnmower row = some (run (lawnmower_sched row.length) ⟨row, 0⟩) ∧
      sort_alternate row = some (run (alternate_sched row.length) ⟨row, 0⟩) ∧
      (∀ j ∈ lawnmower_sched row.length, j + 1 < row.length) ∧
      (∀ j ∈ alternate_sched row.length, j + 1 < row.length) :=
  ⟨⟨_, sort_lawnmower_eq row⟩, ⟨_, sort_alternate_eq row (by omega)⟩,
    sort_lawnmower_eq row, sort_alternate_eq row (by omega),
    fun j hj => mem_lawnmower_sched _ j hj, fun j hj => mem_alternate_sched _ j hj⟩

theorem sorts_respect_bounds_witness :
    (∃ r, sort_lawnmower [DISK_LIGHT, DISK_DARK, DISK_DARK, DISK_DARK] = some r) ∧
      (∃ r, sort_alternate [DISK_LIGHT, DISK_DARK, DISK_DARK, DISK_DARK] = some r) ∧
      sort_lawnmower [DISK_LIGHT, DISK_DARK, DISK_DARK, DISK_DARK]
        = some (run (lawnmower_sched [DISK_LIGHT, DISK_DARK, DISK_DARK, DISK_DARK].length)
            ⟨[DISK_LIGHT, DISK_DARK, DISK_DARK, DISK_DARK], 0⟩) ∧
      sort_alternate [DISK_LIGHT, DISK_DARK, DISK_DARK, DISK_DARK]
        = some (run (alternate_sched [DISK_LIGHT, DISK_DARK, DISK_DARK, DISK_DARK].length)
            ⟨[DISK_LIGHT, DISK_DARK, DISK_DARK, DISK_DARK], 0⟩) ∧
      (∀ j ∈ lawnmower_sched [DISK_LIGHT, DISK_DARK, DISK_DARK, DISK_DARK].length,
        j + 1 < [DISK_LIGHT, DISK_DARK, DISK_DARK, DISK_DARK].length) ∧
      (∀ j ∈ alternate_sched [DISK_LIGHT, DISK_DARK, DISK_DARK, DISK_DARK].length,
        j + 1 < [DISK_LIGHT, DISK_DARK, DISK_DARK, DISK_DARK].length) :=
  sorts_respect_bounds [DISK_LIGHT, DISK_DARK, DISK_DARK, DISK_DARK] 2 (by decide) (by decide)

/-- C18 fails in the code on the balanced row `disk_state(2 ^ 30)`, of length
`2 n` with `n = 2 ^ 30` dark and `n` light disks: the `int size` of
`sort_lawnmower` is negative, no round runs, and `is_sorted()` is false of the
row returned. -/
theorem sort_lawnmower_leaves_balanced_row_unsorted :
    ∃ row r, disk_state.create (2 ^ 30) = some row ∧
      row.length = 2 * 2 ^ 30 ∧
      row.count DISK_DARK = 2 ^ 30 ∧ row.count DISK_LIGHT = 2 ^ 30 ∧
      sort_lawnmower row = some r ∧
      r.after.is_sorted = false :=
  ⟨alternating (2 ^ 30), ⟨alternating (2 ^ 30), 0⟩,
    create_eq _ (by norm_num) (by norm_num), alternating_length _,
    alternating_count_dark _, alternating_count_light _,
    sort_lawnmower_negative_size _ (by rw [alternating_length]; norm_num),
    is_sorted_alternating _ (by norm_num)⟩

/-- C19 fails in the code on `disk_state(92682)`: the row has 4295022903 pairs
of indices `i < j` with dark at `i` and light at `j`, which is `n (n + 1) / 2`,
and the 32-bit counter of `sort_lawnmower` returns 55607. -/
theorem sort_lawnmower_swap_count_wraps :
    ∃ before r, disk_state.create 92682 = some before ∧
      sort_lawnmower before = some r ∧
      r.swap_count = 55607 ∧
      inversion_pairs before = 92682 * (92682 + 1) / 2 ∧
      inversion_pairs before = 4295022903 ∧
      r.swap_count ≠ inversion_pairs before := by
  have e : 92682 * (92682 + 1) / 2 = 4295022903 := by norm_num
  have h := inversion_pairs_alternating 92682
  refine ⟨alternating 92682,
    ⟨light_dark 92682 92682, 92682 * (92682 + 1) / 2 % 2 ^ 32⟩,
    create_eq _ (by norm_num) (by norm_num), sort_lawnmower_alternating _ (by norm_num),
    by decide, h, h.trans e, ?_⟩
  rw [h]
  decide

/-- C20: `sort_alternate` does not sort every balanced row: `swap(1)` turns
`disk_state(2)` into the row dark, dark, light, light, for which
`sort_alternate` returns the row dark, light, light, dark; `is_sorted()` is
false of it, and it is neither dark disks followed by light disks nor light
disks followed by dark disks. -/
theorem sort_alternate_leaves_balanced_row_unsorted :
    ∃ before mid r, disk_state.create 2 = some before ∧
      disk_state.swap before 1 = some mid ∧
      mid = [DISK_DARK, DISK_DARK, DISK_LIGHT, DISK_LIGHT] ∧
      mid.count DISK_DARK = 2 ∧ mid.count DISK_LIGHT = 2 ∧
      sort_alternate mid = some r ∧
      r.after = [DISK_DARK, DISK_LIGHT, DISK_LIGHT, DISK_DARK] ∧
      r.after.is_sorted = false ∧
      (∀ a b, r.after ≠ List.replicate a DISK_DARK ++ List.replicate b DISK_LIGHT) ∧
      (∀ a b, r.after ≠ List.replicate a DISK_LIGHT ++ List.replicate b DISK_DARK) := by
  refine ⟨[DISK_DARK, DISK_LIGHT, DISK_DARK, DISK_LIGHT],
    [DISK_DARK, DISK_DARK, DISK_LIGHT, DISK_LIGHT],
    ⟨[DISK_DARK, DISK_LIGHT, DISK_LIGHT, DISK_DARK], 2⟩,
    by decide, by decide, rfl, by decide, by decide, by decide, rfl, by decide, ?_, ?_⟩
  · intro a b h
    rcases a with _ | _ | a <;> rcases b with _ | _ | _ | _ | b <;>
      simp [List.replicate_succ] at h
  · intro a b h
    rcases a with _ | a <;> rcases b with _ | _ | b <;>
      simp [List.replicate_succ] at h
